import Mathlib

/-!

# Verification of the cribcall QUIC session layer

Shallow embedding of `src/native/cribcall_quic/rust/src/lib.rs`: the
session-handle registry, the event model, the trust policy, and the client
and server worker loops. The quiche transport engine, the SHA-256 digest
and the UDP socket are collaborators; their per-iteration behaviour is an
input (an oracle trace), while everything the source itself computes is
translated directly.

-/

set_option maxHeartbeats 1000000

namespace CribcallQuic

/-- Rust strings that the source inspects (fingerprints, hex ids, the CSV
allowlist) are modelled as lists of Unicode scalar values, so that the
source's `to_lowercase`, `trim` and `split` calls become arithmetic. -/
abbrev RStr : Type := List Nat

/-- ASCII whitespace, the fragment of Rust `char::is_whitespace` relevant to
fingerprint CSVs and hex ids. -/
def isWsCode (c : Nat) : Bool := c == 32 || c == 9 || c == 10 || c == 13

/-- Model of Rust `str::trim`. -/
def rstrTrim (s : RStr) : RStr :=
  ((s.dropWhile isWsCode).reverse.dropWhile isWsCode).reverse

/-- Model of Rust `char::to_lowercase` (ASCII range). -/
def lowerCode (c : Nat) : Nat := if 65 ≤ c && c ≤ 90 then c + 32 else c

/-- Model of Rust `str::to_lowercase` (ASCII range). -/
def rstrLower (s : RStr) : RStr := s.map lowerCode

/-- Helper for `split(',')`: accumulate the current piece (reversed). -/
def splitCommaAux (acc : RStr) : RStr → List RStr
  | [] => [acc.reverse]
  | c :: rest =>
    if c == 44 then acc.reverse :: splitCommaAux [] rest
    else splitCommaAux (c :: acc) rest

/-- Model of Rust `str::split(',')`. -/
def splitComma (s : RStr) : List RStr := splitCommaAux [] s

/-- `parse_allowlist` (lib.rs:947-958): split the CSV on commas, trim each
piece, drop empty pieces, lowercase the rest. The Rust `HashSet` is
modelled by the list of kept entries, used only through membership. -/
def parse_allowlist (csv : RStr) : List RStr :=
  (splitComma csv).filterMap (fun s =>
    let trimmed := rstrTrim s
    if trimmed.isEmpty then none else some (rstrLower trimmed))

/-- One lowercase hex digit, as produced by Rust `format!("{b:02x}")`. -/
def hexDigitCode (n : Nat) : Nat := if n < 10 then 48 + n else 87 + n

/-- `hex_string` (lib.rs:970-972): each byte becomes two lowercase hex
digits. -/
def hex_string (data : List Nat) : RStr :=
  data.flatMap (fun b => [hexDigitCode (b / 16), hexDigitCode (b % 16)])

/-- `sha256_hex` (lib.rs:960-968). The digest itself comes from the
external `sha2` crate, modelled by the `hashFn` collaborator parameter;
the source's own contribution is the lowercase hex encoding. -/
def sha256_hex (hashFn : List Nat → List Nat) (data : List Nat) : RStr :=
  hex_string (hashFn data)

/-- `CcQuicStatus` (lib.rs:30-48). -/
inductive CcQuicStatus
  | ok
  | nullPointer
  | configError
  | invalidAlpn
  | certLoadError
  | socketError
  | handshakeError
  | eventSendError
  | internal
deriving DecidableEq, Repr

/-- `CcQuicStatus::code` (lib.rs:44-48), the `i32` discriminant values. -/
def CcQuicStatus.code : CcQuicStatus → Int
  | .ok => 0
  | .nullPointer => 1
  | .configError => 2
  | .invalidAlpn => 3
  | .certLoadError => 4
  | .socketError => 5
  | .handshakeError => 6
  | .eventSendError => 7
  | .internal => 255

/-- The process-wide handle table `CONNECTIONS` (lib.rs:86): the `DashMap`
is modelled by its key set (the per-handle command senders are owned by
their loops and are not needed for the registry claims); `none` models the
`OnceCell` before its first initialization. -/
abbrev Registry := Option (List Nat)

/-- `DashMap::remove`, as performed by a worker thread after its loop ends
(lib.rs:281-283 and lib.rs:381-383). -/
def removeHandle (m : List Nat) (handle : Nat) : List Nat :=
  m.filter (fun k => k != handle)

/-- One hex-digit value, as accepted by the external `hex` crate decoder. -/
def hexVal (c : Nat) : Option Nat :=
  if 48 ≤ c && c ≤ 57 then some (c - 48)
  else if 97 ≤ c && c ≤ 102 then some (c - 87)
  else if 65 ≤ c && c ≤ 70 then some (c - 55)
  else none

/-- `hex::decode` (external crate, standard semantics): pairs of hex
digits; an odd length or a non-hex digit fails. -/
def hexDecode : RStr → Option (List Nat)
  | [] => some []
  | [_] => none
  | c1 :: c2 :: rest =>
    match hexVal c1, hexVal c2, hexDecode rest with
    | some a, some b, some r => some ((a * 16 + b) :: r)
    | _, _, _ => none

/-- `cc_quic_conn_send` (lib.rs:393-440). The FFI null/length checks become
emptiness checks on the marshalled arguments; `sendOk` is whether the
`mpsc` send to the worker succeeds (the receiver may already be gone). -/
def cc_quic_conn_send (reg : Registry) (handle : Nat) (connIdStr : RStr)
    (payload : List Nat) (sendOk : Bool) : Int :=
  if payload.isEmpty then CcQuicStatus.nullPointer.code
  else if connIdStr.isEmpty then CcQuicStatus.nullPointer.code
  else
    match hexDecode (rstrTrim connIdStr) with
    | none => CcQuicStatus.internal.code
    | some _connId =>
      match reg with
      | none => CcQuicStatus.internal.code
      | some m =>
        if m.contains handle then
          if sendOk then CcQuicStatus.ok.code else CcQuicStatus.internal.code
        else CcQuicStatus.internal.code

/-- `cc_quic_conn_close` (lib.rs:442-452): look the handle up, send a
`Close` command when present (result discarded), and return `Ok` whether
or not the handle was found. -/
def cc_quic_conn_close (reg : Registry) (handle : Nat) : Int :=
  match reg with
  | none => CcQuicStatus.internal.code
  | some m =>
    if m.contains handle then CcQuicStatus.ok.code else CcQuicStatus.ok.code

/-- Outcomes of the fallible setup calls in `cc_quic_client_connect`
(lib.rs:183-291), in source order. `connectOk` and `nonblockOk` are the
outcomes of `socket.connect` (lib.rs:255-258) and `set_nonblocking`
(lib.rs:259-261), which the source only logs and otherwise ignores. -/
structure ClientConnectEnv where
  argsNonNull : Bool
  stringsUtf8Ok : Bool
  expectedFpArg : RStr
  certLoadOk : Bool
  keyLoadOk : Bool
  addrParseOk : Bool
  bindOk : Bool
  connectOk : Bool
  nonblockOk : Bool
deriving Repr

/-- What a session-creation entry point produced: the returned status, and
whether a worker thread was spawned, a handle allocated, and a registry
entry inserted. `workerExpectedFp` is the expected-fingerprint string as
handed to the spawned client worker. -/
structure SessionCreateResult where
  status : Int
  threadSpawned : Bool
  handleAllocated : Bool
  registryInserted : Bool
  workerExpectedFp : Option RStr
deriving DecidableEq, Repr

/-- `cc_quic_client_connect` (lib.rs:183-291): null checks, C-string
conversion (the expected fingerprint is lowercased there, lib.rs:214),
certificate and key loading, peer-address parse, bind — each failure
returns synchronously. `connect` and `set_nonblocking` failures are
logged and ignored. On success a channel, handle, registry entry and
worker thread are created. -/
def cc_quic_client_connect (env : ClientConnectEnv) : SessionCreateResult :=
  if !env.argsNonNull then ⟨CcQuicStatus.nullPointer.code, false, false, false, none⟩
  else if !env.stringsUtf8Ok then ⟨CcQuicStatus.internal.code, false, false, false, none⟩
  else if !env.certLoadOk then ⟨CcQuicStatus.certLoadError.code, false, false, false, none⟩
  else if !env.keyLoadOk then ⟨CcQuicStatus.certLoadError.code, false, false, false, none⟩
  else if !env.addrParseOk then ⟨CcQuicStatus.socketError.code, false, false, false, none⟩
  else if !env.bindOk then ⟨CcQuicStatus.socketError.code, false, false, false, none⟩
  else ⟨CcQuicStatus.ok.code, true, true, true, some (rstrLower env.expectedFpArg)⟩

/-- Outcomes of the fallible setup calls in `cc_quic_server_start`
(lib.rs:293-391), in source order (address parse precedes credential
loading there). -/
structure ServerStartEnv where
  argsNonNull : Bool
  stringsUtf8Ok : Bool
  trustedFingerprintsCsv : RStr
  addrParseOk : Bool
  certLoadOk : Bool
  keyLoadOk : Bool
  bindOk : Bool
  nonblockOk : Bool
deriving Repr

/-- Result of `cc_quic_server_start`; `workerAllowlist` is the parsed
allowlist handed to the spawned server worker. -/
structure ServerCreateResult where
  status : Int
  threadSpawned : Bool
  handleAllocated : Bool
  registryInserted : Bool
  workerAllowlist : Option (List RStr)
deriving DecidableEq, Repr

/-- `cc_quic_server_start` (lib.rs:293-391). `set_nonblocking` failure is
logged and ignored (lib.rs:361-363). -/
def cc_quic_server_start (env : ServerStartEnv) : ServerCreateResult :=
  if !env.argsNonNull then ⟨CcQuicStatus.nullPointer.code, false, false, false, none⟩
  else if !env.stringsUtf8Ok then ⟨CcQuicStatus.internal.code, false, false, false, none⟩
  else if !env.addrParseOk then ⟨CcQuicStatus.socketError.code, false, false, false, none⟩
  else if !env.certLoadOk then ⟨CcQuicStatus.certLoadError.code, false, false, false, none⟩
  else if !env.keyLoadOk then ⟨CcQuicStatus.certLoadError.code, false, false, false, none⟩
  else if !env.bindOk then ⟨CcQuicStatus.socketError.code, false, false, false, none⟩
  else ⟨CcQuicStatus.ok.code, true, true, true,
    some (parse_allowlist env.trustedFingerprintsCsv)⟩

/-- `QuicEvent` (lib.rs:50-73). Connection ids cross the boundary as
lowercase hex strings. Payload bytes are kept raw here: the source
base64-encodes them only at JSON serialization, through the external
`base64` crate. -/
inductive QuicEvent
  | connected (handle : Nat) (connectionId : RStr) (peerFingerprint : RStr)
  | message (handle : Nat) (connectionId : RStr) (data : List Nat)
  | closed (handle : Nat) (connectionId : RStr) (reason : Option String)
  | error (handle : Nat) (connectionId : Option RStr) (message : String)
deriving DecidableEq, Repr

/-- `WorkerCommand` (lib.rs:75-79). -/
inductive WorkerCommand
  | send (connId : List Nat) (payload : List Nat)
  | close (connId : Option (List Nat))
deriving DecidableEq, Repr

/-- Calls the loops make into the engine connection objects and the
socket, recorded so close codes and no-op properties can be stated. -/
inductive EngineCall
  | streamSend (connId : List Nat) (payload : List Nat)
  | connClose (connId : List Nat) (code : Nat) (reason : String)
  | connRecv (connId : List Nat)
  | onTimeout (connId : List Nat)
  | sockSend (connId : List Nat)
deriving DecidableEq, Repr

/-- Result of `conn.send(&mut out)`: a datagram, `Error::Done`, or a fatal
error. -/
inductive SendRes
  | produced
  | done
  | fatal (msg : String)
deriving DecidableEq, Repr

/-- Result of `socket.recv_from` in the client loop: a datagram,
`WouldBlock`, or a fatal error. -/
inductive RecvRes
  | pkt
  | wouldBlock
  | fatal (msg : String)
deriving DecidableEq, Repr

/-- Whether a loop iteration falls through to the next iteration or breaks
out of the loop. -/
inductive LoopOutcome
  | next
  | brk
deriving DecidableEq, Repr

/-- Engine and socket observations for one client loop iteration
(`run_client_worker`, lib.rs:518-683). The engine is a black box mutated
by `recv`/`send`/`on_timeout`, so what its queries report during one
iteration is an input: `establishedAtDrain` is `is_established()` at the
command drain, `established` its value at the announce check (after the
send/recv of this iteration), `reads` the successful `stream_recv`
payloads across the readable streams, in order. -/
structure ClientIter where
  cmds : List WorkerCommand
  establishedAtDrain : Bool
  sendRes : SendRes
  recvRes : RecvRes
  established : Bool
  peerCert : Option (List Nat)
  reads : List (List Nat)
  closed : Bool
  peerErr : Option String
  timerDue : Bool

/-- Command drain of the client loop (lib.rs:519-536): `Send` is applied
only when established and the id matches the client's `scid`; `Close`
matches a missing id or the client's own id. -/
def client_drain_cmds (scid : List Nat) (estab : Bool) :
    List WorkerCommand → List EngineCall
  | [] => []
  | .send cid p :: rest =>
    (if estab && cid == scid then [EngineCall.streamSend cid p] else []) ++
      client_drain_cmds scid estab rest
  | .close cid :: rest =>
    (if (match cid with
         | none => true
         | some c => c == scid) then
      [EngineCall.connClose scid 0x100 "app close"] else []) ++
      client_drain_cmds scid estab rest

/-- Peer fingerprint computed at the announce check (lib.rs:581-584):
SHA-256 of the peer certificate, or the empty string without one. -/
def clientPeerFp (hashFn : List Nat → List Nat) (it : ClientIter) : RStr :=
  match it.peerCert with
  | some cert => sha256_hex hashFn cert
  | none => []

/-- Tail of a client iteration after the announce check: the stream reads
(lib.rs:618-640), the closed check (lib.rs:642-660) and the timer step
(lib.rs:662-682). -/
def run_client_worker_tail (handle : Nat) (scid : List Nat) (it : ClientIter)
    (ann : Bool) (evs : List QuicEvent) (calls : List EngineCall) :
    Bool × List QuicEvent × List EngineCall × LoopOutcome :=
  let cidHex := hex_string scid
  let evs2 := evs ++ it.reads.map (fun d => QuicEvent.message handle cidHex d)
  if it.closed then
    (ann, evs2 ++ [QuicEvent.closed handle cidHex it.peerErr], calls, .brk)
  else
    (ann, evs2, calls ++ (if it.timerDue then [EngineCall.onTimeout scid] else []), .next)

/-- One iteration of the `run_client_worker` loop (lib.rs:518-683): drain
commands, engine send (a fatal error emits Error and breaks), socket recv
(a fatal error breaks without an event), the announce/trust check
(lib.rs:579-616; on mismatch: close 0x102, Error, break), then the tail. -/
def run_client_worker_iter (handle : Nat) (hashFn : List Nat → List Nat)
    (expectedFp : RStr) (scid : List Nat) (announced : Bool) (it : ClientIter) :
    Bool × List QuicEvent × List EngineCall × LoopOutcome :=
  let cidHex := hex_string scid
  let dcalls := client_drain_cmds scid it.establishedAtDrain it.cmds
  match it.sendRes with
  | .fatal msg =>
    (announced,
      [QuicEvent.error handle (some cidHex) ("quic send error: " ++ msg)],
      dcalls, .brk)
  | sr =>
    let calls1 := dcalls ++
      (match sr with | .produced => [EngineCall.sockSend scid] | _ => [])
    match it.recvRes with
    | .fatal _ => (announced, [], calls1, .brk)
    | rr =>
      let calls2 := calls1 ++
        (match rr with | .pkt => [EngineCall.connRecv scid] | _ => [])
      if it.established && !announced then
        let peerFp := clientPeerFp hashFn it
        if !expectedFp.isEmpty && !(rstrLower peerFp == expectedFp) then
          (true,
            [QuicEvent.error handle (some cidHex) "server fingerprint mismatch"],
            calls2 ++ [EngineCall.connClose scid 0x102 "fingerprint mismatch"], .brk)
        else
          run_client_worker_tail handle scid it true
            [QuicEvent.connected handle cidHex peerFp] calls2
      else
        run_client_worker_tail handle scid it announced [] calls2

/-- The client loop over a trace of per-iteration oracles, collecting the
emitted events; the loop ends when an iteration breaks or when the trace
is exhausted. -/
def run_client_worker (handle : Nat) (hashFn : List Nat → List Nat)
    (expectedFp : RStr) (scid : List Nat) :
    Bool → List ClientIter → List QuicEvent
  | _, [] => []
  | ann, it :: rest =>
    match run_client_worker_iter handle hashFn expectedFp scid ann it with
    | (ann', evs, _, .next) =>
      evs ++ run_client_worker handle hashFn expectedFp scid ann' rest
    | (_, evs, _, .brk) => evs

/-- Per-connection engine observations for one server iteration, same
conventions as `ClientIter`. -/
structure ConnObs where
  sendRes : SendRes
  established : Bool
  peerCert : Option (List Nat)
  reads : List (List Nat)
  closed : Bool
  peerErr : Option String
  timerDue : Bool

/-- Result of `socket.recv_from` plus header parsing in the server loop
(lib.rs:745-791): nothing, a fatal error, a datagram with an unparsable
header, or a datagram with destination id `dcid`; `freshScid` is the
random id `OsRng` would generate for an accept, `acceptOk` whether
`quiche::accept` succeeds. -/
inductive ServerRecv
  | wouldBlock
  | fatal (msg : String)
  | badHeader
  | pkt (dcid : List Nat) (freshScid : List Nat) (acceptOk : Bool)

/-- Oracle for one server loop iteration: the drained commands, the
receive outcome, `is_established()` per connection at drain time, and the
per-connection observations during the pass. -/
structure ServerIter where
  cmds : List WorkerCommand
  drainEstablished : List Nat → Bool
  recv : ServerRecv
  obs : List Nat → ConnObs

/-- Mutable state of the server loop (lib.rs:711-713): the key set of
`conns`, the `announced` set, and the key set of `start_times` (its
`Instant` values feed only a diagnostic log line). The `HashMap` iteration
order is modelled by list order. -/
structure ServerState where
  conns : List (List Nat)
  announced : List (List Nat)
  startTimes : List (List Nat)
deriving DecidableEq, Repr

/-- Server loop state at entry (lib.rs:711-713): all maps empty. -/
def initialServerState : ServerState := ⟨[], [], []⟩

/-- `HashMap::insert`/`HashSet::insert` on the key set: replacing a value
leaves the key set unchanged. -/
def insertKey (k : List Nat) (l : List (List Nat)) : List (List Nat) :=
  if l.contains k then l else l ++ [k]

/-- Command drain of the server loop (lib.rs:716-743): `Send` targets a
mapped, established connection; `Close` with an id targets that entry,
without an id every tracked connection. -/
def server_drain_cmds (conns : List (List Nat)) (estab : List Nat → Bool) :
    List WorkerCommand → List EngineCall
  | [] => []
  | .send cid p :: rest =>
    (if conns.contains cid && estab cid then [EngineCall.streamSend cid p] else []) ++
      server_drain_cmds conns estab rest
  | .close cid :: rest =>
    (match cid with
     | some c =>
       if conns.contains c then [EngineCall.connClose c 0x101 "server close"] else []
     | none => conns.map (fun c => EngineCall.connClose c 0x101 "server close")) ++
      server_drain_cmds conns estab rest

/-- The receive half of a server iteration (lib.rs:745-791): on an unknown
destination id, accept under a fresh random id and insert it (keyed by the
fresh id, lib.rs:767-768), then look the original destination id up again
and feed the datagram to the connection found there. Returns the updated
state, the engine calls, the connection the datagram was fed to, whether
the iteration was abandoned (the source's `continue`), and whether the
loop breaks (fatal receive error, lib.rs:787-790). -/
def server_recv_step (st : ServerState) (recv : ServerRecv) :
    ServerState × List EngineCall × Option (List Nat) × Bool × Bool :=
  match recv with
  | .wouldBlock => (st, [], none, false, false)
  | .fatal _ => (st, [], none, false, true)
  | .badHeader => (st, [], none, true, false)
  | .pkt dcid fresh acceptOk =>
    if st.conns.contains dcid then
      (st, [EngineCall.connRecv dcid], some dcid, false, false)
    else if acceptOk then
      let st1 : ServerState :=
        { st with conns := insertKey fresh st.conns,
                  startTimes := insertKey fresh st.startTimes }
      if st1.conns.contains dcid then
        (st1, [EngineCall.connRecv dcid], some dcid, false, false)
      else (st1, [], none, false, false)
    else (st, [], none, true, false)

/-- Peer fingerprint of an established server connection (lib.rs:824-827). -/
def serverPeerFp (hashFn : List Nat → List Nat) (o : ConnObs) : RStr :=
  match o.peerCert with
  | some cert => sha256_hex hashFn cert
  | none => []

/-- Tail of one connection's slice of the server pass: readable streams
(lib.rs:856-878), the closed check (lib.rs:880-899) and the timer step
(lib.rs:901-923). The last Bool is whether the id goes onto `to_close`. -/
def server_conn_tail (handle : Nat) (id : List Nat) (o : ConnObs) :
    List QuicEvent × List EngineCall × Bool :=
  let idHex := hex_string id
  let msgs := o.reads.map (fun d => QuicEvent.message handle idHex d)
  if o.closed then (msgs ++ [QuicEvent.closed handle idHex o.peerErr], [], true)
  else (msgs, (if o.timerDue then [EngineCall.onTimeout id] else []), false)

/-- One connection's slice of the server pass (lib.rs:795-924): engine
send (a fatal error emits Error and marks for removal), then the
announce/trust check (lib.rs:823-854; an untrusted fingerprint closes with
0x103 and marks for removal, with no event), then the tail. Returns the
events, the calls, whether the id was newly announced, and whether it was
pushed onto `to_close`. -/
def server_conn_pass (handle : Nat) (hashFn : List Nat → List Nat)
    (allow : List RStr) (announced : List (List Nat)) (id : List Nat)
    (o : ConnObs) : List QuicEvent × List EngineCall × Bool × Bool :=
  let idHex := hex_string id
  match o.sendRes with
  | .fatal msg =>
    ([QuicEvent.error handle (some idHex) ("server send error: " ++ msg)],
      [], false, true)
  | sr =>
    let calls0 := (match sr with | .produced => [EngineCall.sockSend id] | _ => [])
    if o.established && !(announced.contains id) then
      let peerFp := serverPeerFp hashFn o
      if !allow.isEmpty && !(allow.contains peerFp) then
        ([], calls0 ++ [EngineCall.connClose id 0x103 "untrusted client"], false, true)
      else
        let t := server_conn_tail handle id o
        (QuicEvent.connected handle idHex peerFp :: t.1, calls0 ++ t.2.1, true, t.2.2)
    else
      let t := server_conn_tail handle id o
      (t.1, calls0 ++ t.2.1, false, t.2.2)

/-- The per-connection pass over the (snapshot) connection list, threading
the `announced` set and accumulating `to_close` (lib.rs:793-924). -/
def server_pass (handle : Nat) (hashFn : List Nat → List Nat)
    (allow : List RStr) (obs : List Nat → ConnObs) :
    List (List Nat) → List (List Nat) →
    List QuicEvent × List EngineCall × List (List Nat) × List (List Nat)
  | announced, [] => ([], [], announced, [])
  | announced, id :: rest =>
    let r := server_conn_pass handle hashFn allow announced id (obs id)
    let announced1 := if r.2.2.1 then insertKey id announced else announced
    let rr := server_pass handle hashFn allow obs announced1 rest
    (r.1 ++ rr.1, r.2.1 ++ rr.2.1, rr.2.2.1,
      (if r.2.2.2 then [id] else []) ++ rr.2.2.2)

/-- One iteration of the `run_server_worker` loop (lib.rs:715-932): drain,
receive/accept, the per-connection pass, then apply the accumulated
removals (lib.rs:926-930). -/
def run_server_worker_iter (handle : Nat) (hashFn : List Nat → List Nat)
    (allow : List RStr) (st : ServerState) (it : ServerIter) :
    ServerState × List QuicEvent × List EngineCall × LoopOutcome :=
  let dcalls := server_drain_cmds st.conns it.drainEstablished it.cmds
  let r := server_recv_step st it.recv
  let st1 := r.1
  if r.2.2.2.2 then (st1, [], dcalls ++ r.2.1, .brk)
  else if r.2.2.2.1 then (st1, [], dcalls ++ r.2.1, .next)
  else
    let p := server_pass handle hashFn allow it.obs st1.announced st1.conns
    let toClose := p.2.2.2
    ({ conns := st1.conns.filter (fun id => !(toClose.contains id)),
       announced := p.2.2.1.filter (fun id => !(toClose.contains id)),
       startTimes := st1.startTimes.filter (fun id => !(toClose.contains id)) },
      p.1, dcalls ++ r.2.1 ++ p.2.1, .next)

/-- The server loop over a trace of per-iteration oracles. -/
def run_server_worker (handle : Nat) (hashFn : List Nat → List Nat)
    (allow : List RStr) : ServerState → List ServerIter → List QuicEvent
  | _, [] => []
  | st, it :: rest =>
    match run_server_worker_iter handle hashFn allow st it with
    | (st', evs, _, .next) => evs ++ run_server_worker handle hashFn allow st' rest
    | (_, evs, _, .brk) => evs

/-- The fresh connection ids the engine randomness generates along a
server trace (lib.rs:757-759). -/
def serverGens : List ServerIter → List (List Nat)
  | [] => []
  | it :: rest =>
    (match it.recv with
     | .pkt _ fresh _ => [fresh]
     | _ => []) ++ serverGens rest

/-- The connection id an event carries, if any. -/
def eventConnId : QuicEvent → Option RStr
  | .connected _ cid _ => some cid
  | .message _ cid _ => some cid
  | .closed _ cid _ => some cid
  | .error _ cid _ => cid

/-- Is this a `Connected` event for the given hex connection id? -/
def isConnectedFor (cid : RStr) : QuicEvent → Bool
  | .connected _ c _ => c == cid
  | _ => false

/-- Is this a `Message` or `Closed` event for the given id? -/
def isMsgOrClosedFor (cid : RStr) : QuicEvent → Bool
  | .message _ c _ => c == cid
  | .closed _ c _ => c == cid
  | _ => false

/-- Is this a `Closed` event for the given id? -/
def isClosedFor (cid : RStr) : QuicEvent → Bool
  | .closed _ c _ => c == cid
  | _ => false

/-- Does this event carry the given id (including `Error` with that id)? -/
def mentionsFor (cid : RStr) (e : QuicEvent) : Bool := eventConnId e == some cid

/-- No `Connected` event for the id in the list. -/
def noConnFor (cid : RStr) (evs : List QuicEvent) : Bool :=
  evs.all (fun e => !(isConnectedFor cid e))

/-- No event at all for the id in the list. -/
def noMentionFor (cid : RStr) (evs : List QuicEvent) : Bool :=
  evs.all (fun e => !(mentionsFor cid e))

/-- Scan for the Connected-once-and-first property: the flag records that
a Connected for the id, or any Message/Closed for the id, has been seen,
after which no further Connected for the id may appear. `connOrdered`
(flag initially false) therefore says: a Connected for the id occurs at
most once, and if it occurs, it precedes every Message and Closed for the
id. -/
def connOrderedFrom (cid : RStr) : Bool → List QuicEvent → Bool
  | _, [] => true
  | true, e :: rest => !(isConnectedFor cid e) && connOrderedFrom cid true rest
  | false, e :: rest =>
    if isConnectedFor cid e then connOrderedFrom cid true rest
    else if isMsgOrClosedFor cid e then connOrderedFrom cid true rest
    else connOrderedFrom cid false rest

/-- Connected at most once, and before every Message/Closed, for the id. -/
def connOrdered (cid : RStr) (evs : List QuicEvent) : Bool :=
  connOrderedFrom cid false evs

/-- The scan flag of `connOrderedFrom` after consuming a list. -/
def lockAfter (cid : RStr) : Bool → List QuicEvent → Bool
  | b, [] => b
  | b, e :: rest =>
    lockAfter cid (b || isConnectedFor cid e || isMsgOrClosedFor cid e) rest

/-- After a Closed event for the id, no event mentioning the id follows. -/
def closedTerminal (cid : RStr) : List QuicEvent → Bool
  | [] => true
  | e :: rest =>
    if isClosedFor cid e then noMentionFor cid rest else closedTerminal cid rest

/-- Hex-membership in a list of raw connection ids. -/
def containsHex (cid : RStr) (l : List (List Nat)) : Bool :=
  l.any (fun j => hex_string j == cid)

/-- The Message events one client iteration produces from its stream reads. -/
def clientMsgs (h : Nat) (scid : List Nat) (it : ClientIter) : List QuicEvent :=
  it.reads.map (fun d => QuicEvent.message h (hex_string scid) d)

/-- The Message events one connection's server pass produces from its
stream reads. -/
def serverMsgs (h : Nat) (id : List Nat) (o : ConnObs) : List QuicEvent :=
  o.reads.map (fun d => QuicEvent.message h (hex_string id) d)

/-- Is this a `Connected` event (for any id)? -/
def isConnectedEvt : QuicEvent → Bool
  | .connected _ _ _ => true
  | _ => false

/-! ## String and hex facts -/

theorem hexDigitCode_inj {m n : Nat} (h : hexDigitCode m = hexDigitCode n) :
    m = n := by
  unfold hexDigitCode at h
  split_ifs at h <;> omega

theorem hex_string_inj : ∀ {l1 l2 : List Nat},
    hex_string l1 = hex_string l2 → l1 = l2 := by
  intro l1
  induction l1 with
  | nil =>
    intro l2 h
    cases l2 with
    | nil => rfl
    | cons b t => simp [hex_string] at h
  | cons a t ih =>
    intro l2 h
    cases l2 with
    | nil => simp [hex_string] at h
    | cons b t2 =>
      simp only [hex_string, List.flatMap_cons, List.cons_append, List.nil_append,
        List.cons.injEq] at h
      obtain ⟨h1, h2, h3⟩ := h
      have e1 := hexDigitCode_inj h1
      have e2 := hexDigitCode_inj h2
      have hab : a = b := by omega
      subst hab
      have : t = t2 := ih h3
      simp [this]

theorem hexDigitCode_not_upper (n : Nat) :
    (65 ≤ hexDigitCode n && hexDigitCode n ≤ 90) = false := by
  unfold hexDigitCode
  split <;> simp <;> omega

theorem hexDigitCode_gt {n : Nat} (h : 65 ≤ hexDigitCode n) :
    90 < hexDigitCode n := by
  unfold hexDigitCode at *
  split at h <;> split <;> omega

theorem lowerCode_hexDigit (n : Nat) : lowerCode (hexDigitCode n) = hexDigitCode n := by
  simp [lowerCode, hexDigitCode_not_upper]

/-- The hex encoding is already lowercase, so `to_lowercase` fixes it. -/
theorem rstrLower_hex_string (d : List Nat) :
    rstrLower (hex_string d) = hex_string d := by
  unfold rstrLower hex_string
  rw [List.map_flatMap]
  congr 1
  funext b
  simp [lowerCode_hexDigit]

theorem lowerCode_idem (c : Nat) : lowerCode (lowerCode c) = lowerCode c := by
  unfold lowerCode
  split_ifs <;> simp_all <;> omega

theorem rstrLower_idem (s : RStr) : rstrLower (rstrLower s) = rstrLower s := by
  unfold rstrLower
  rw [List.map_map]
  congr 1
  funext c
  exact lowerCode_idem c

theorem mem_parse_allowlist_lower {csv s : RStr} (h : s ∈ parse_allowlist csv) :
    rstrLower s = s := by
  unfold parse_allowlist at h
  simp only [List.mem_filterMap] at h
  obtain ⟨p, hp, he⟩ := h
  by_cases ht : (rstrTrim p).isEmpty
  · rw [if_pos ht] at he
    exact absurd he (by simp)
  · rw [if_neg ht] at he
    obtain rfl : rstrLower (rstrTrim p) = s := by simpa using he
    exact rstrLower_idem _

theorem splitCommaAux_ws : ∀ (csv acc : RStr),
    (∀ c ∈ acc, isWsCode c = true) →
    (∀ c ∈ csv, c = 44 ∨ isWsCode c = true) →
    ∀ p ∈ splitCommaAux acc csv, ∀ c ∈ p, isWsCode c = true := by
  intro csv
  induction csv with
  | nil =>
    intro acc hacc _ p hp c hc
    simp only [splitCommaAux, List.mem_singleton] at hp
    subst hp
    exact hacc c (List.mem_reverse.mp hc)
  | cons d rest ih =>
    intro acc hacc hcsv p hp c hc
    simp only [splitCommaAux] at hp
    by_cases hd : (d == 44) = true
    · rw [if_pos hd] at hp
      rcases List.mem_cons.mp hp with h | h
      · subst h
        exact hacc c (List.mem_reverse.mp hc)
      · exact ih [] (by simp) (fun e he => hcsv e (List.mem_cons_of_mem _ he)) p h c hc
    · rw [if_neg hd] at hp
      refine ih (d :: acc) ?_ (fun e he => hcsv e (List.mem_cons_of_mem _ he)) p hp c hc
      intro e he
      rcases List.mem_cons.mp he with h | h
      · rcases hcsv d (List.mem_cons_self _ _) with h44 | hws
        · exact absurd (by simp [h44]) hd
        · rw [h]
          exact hws
      · exact hacc e h

theorem rstrTrim_ws {s : RStr} (h : ∀ c ∈ s, isWsCode c = true) :
    rstrTrim s = [] := by
  unfold rstrTrim
  rw [List.dropWhile_eq_nil_iff.mpr h]
  simp

/-- A CSV of only commas and whitespace parses to the empty allowlist. -/
theorem parse_allowlist_ws {csv : RStr}
    (h : ∀ c ∈ csv, c = 44 ∨ isWsCode c = true) : parse_allowlist csv = [] := by
  unfold parse_allowlist
  apply List.filterMap_eq_nil_iff.mpr
  intro p hp
  have hws : ∀ c ∈ p, isWsCode c = true :=
    splitCommaAux_ws csv [] (by intro c hc; simp at hc) h p hp
  simp [rstrTrim_ws hws]

/-! ## Generic facts about the event-order predicates -/

theorem mentions_of_isConnected {cid : RStr} {e : QuicEvent}
    (h : isConnectedFor cid e = true) : mentionsFor cid e = true := by
  cases e <;> simp_all [isConnectedFor, mentionsFor, eventConnId]

theorem mentions_of_isMsgOrClosed {cid : RStr} {e : QuicEvent}
    (h : isMsgOrClosedFor cid e = true) : mentionsFor cid e = true := by
  cases e <;> simp_all [isMsgOrClosedFor, mentionsFor, eventConnId]

theorem mentions_of_isClosed {cid : RStr} {e : QuicEvent}
    (h : isClosedFor cid e = true) : mentionsFor cid e = true := by
  cases e <;> simp_all [isClosedFor, mentionsFor, eventConnId]

theorem isConnected_eventConnId {cid : RStr} {e : QuicEvent}
    (h : eventConnId e ≠ some cid) : isConnectedFor cid e = false := by
  cases e <;> simp_all [isConnectedFor, eventConnId]

theorem isMsgOrClosed_eventConnId {cid : RStr} {e : QuicEvent}
    (h : eventConnId e ≠ some cid) : isMsgOrClosedFor cid e = false := by
  cases e <;> simp_all [isMsgOrClosedFor, eventConnId]

theorem isClosed_eventConnId {cid : RStr} {e : QuicEvent}
    (h : eventConnId e ≠ some cid) : isClosedFor cid e = false := by
  cases e <;> simp_all [isClosedFor, eventConnId]

theorem mentions_eventConnId {cid : RStr} {e : QuicEvent}
    (h : eventConnId e ≠ some cid) : mentionsFor cid e = false := by
  simp_all [mentionsFor]

theorem isConnected_of_isConnectedEvt {cid : RStr} {e : QuicEvent}
    (h : isConnectedEvt e = false) : isConnectedFor cid e = false := by
  cases e <;> simp_all [isConnectedFor, isConnectedEvt]

theorem connOrderedFrom_nil {cid : RStr} {b : Bool} :
    connOrderedFrom cid b [] = true := by
  cases b <;> rfl

theorem connOrderedFrom_of_noConn {cid : RStr} :
    ∀ {evs : List QuicEvent} {b : Bool}, noConnFor cid evs = true →
    connOrderedFrom cid b evs = true := by
  intro evs
  induction evs with
  | nil => intro b _; exact connOrderedFrom_nil
  | cons e t ih =>
    intro b h
    simp only [noConnFor, List.all_cons, Bool.and_eq_true, Bool.not_eq_true'] at h
    obtain ⟨he, ht⟩ := h
    have ht' : noConnFor cid t = true := ht
    cases b with
    | true => simp [connOrderedFrom, he, ih ht']
    | false =>
      simp only [connOrderedFrom, he, if_false, Bool.false_eq_true]
      split <;> exact ih ht'

theorem lockAfter_true {cid : RStr} : ∀ (evs : List QuicEvent),
    lockAfter cid true evs = true := by
  intro evs
  induction evs with
  | nil => rfl
  | cons e t ih => simp [lockAfter, ih]

theorem lockAfter_of_noRel {cid : RStr} :
    ∀ {evs : List QuicEvent} (b : Bool),
    (∀ e ∈ evs, isConnectedFor cid e = false ∧ isMsgOrClosedFor cid e = false) →
    lockAfter cid b evs = b := by
  intro evs
  induction evs with
  | nil => intro b _; rfl
  | cons e t ih =>
    intro b h
    have he := h e (List.mem_cons_self _ _)
    simp only [lockAfter, he.1, he.2, Bool.or_false]
    exact ih b (fun x hx => h x (List.mem_cons_of_mem _ hx))

theorem lockAfter_append {cid : RStr} :
    ∀ (xs : List QuicEvent) (b : Bool) (ys : List QuicEvent),
    lockAfter cid b (xs ++ ys) = lockAfter cid (lockAfter cid b xs) ys := by
  intro xs
  induction xs with
  | nil => intro b ys; rfl
  | cons e t ih => intro b ys; simp [lockAfter, ih]

theorem connOrderedFrom_append {cid : RStr} :
    ∀ (xs : List QuicEvent) (b : Bool) (ys : List QuicEvent),
    connOrderedFrom cid b (xs ++ ys) =
      (connOrderedFrom cid b xs && connOrderedFrom cid (lockAfter cid b xs) ys) := by
  intro xs
  induction xs with
  | nil => intro b ys; simp [connOrderedFrom_nil, lockAfter]
  | cons e t ih =>
    intro b ys
    cases b with
    | true =>
      simp only [List.cons_append, connOrderedFrom, lockAfter, Bool.true_or,
        List.append_eq, ih, Bool.and_assoc]
    | false =>
      by_cases hc : isConnectedFor cid e = true
      · simp [connOrderedFrom, lockAfter, hc, ih]
      · by_cases hm : isMsgOrClosedFor cid e = true
        · simp [connOrderedFrom, lockAfter, hc, hm, ih]
        · simp [connOrderedFrom, lockAfter, hc, hm, ih]

theorem lockAfter_true_mention {cid : RStr} :
    ∀ {evs : List QuicEvent} {b : Bool}, lockAfter cid b evs = true →
    b = true ∨ ∃ e ∈ evs, (isConnectedFor cid e || isMsgOrClosedFor cid e) = true := by
  intro evs
  induction evs with
  | nil => intro b h; exact Or.inl h
  | cons e t ih =>
    intro b h
    simp only [lockAfter] at h
    rcases ih h with hb | ⟨x, hx, hrel⟩
    · simp only [Bool.or_eq_true] at hb
      rcases hb with (hb | hb) | hb
      · exact Or.inl hb
      · exact Or.inr ⟨e, List.mem_cons_self _ _, by simp [hb]⟩
      · exact Or.inr ⟨e, List.mem_cons_self _ _, by simp [hb]⟩
    · exact Or.inr ⟨x, List.mem_cons_of_mem _ hx, hrel⟩

theorem closedTerminal_of_noMention {cid : RStr} :
    ∀ {evs : List QuicEvent}, noMentionFor cid evs = true →
    closedTerminal cid evs = true := by
  intro evs
  induction evs with
  | nil => intro _; rfl
  | cons e t ih =>
    intro h
    simp only [noMentionFor, List.all_cons, Bool.and_eq_true, Bool.not_eq_true'] at h
    obtain ⟨he, ht⟩ := h
    have hcl : isClosedFor cid e = false := by
      cases hc : isClosedFor cid e
      · rfl
      · exact absurd (mentions_of_isClosed hc) (by simp [he])
    simp only [closedTerminal, hcl, Bool.false_eq_true, if_false]
    exact ih ht

theorem closedTerminal_append_of_noClosed {cid : RStr} :
    ∀ {xs : List QuicEvent} (ys : List QuicEvent),
    (∀ e ∈ xs, isClosedFor cid e = false) →
    closedTerminal cid (xs ++ ys) = closedTerminal cid ys := by
  intro xs
  induction xs with
  | nil => intro ys _; rfl
  | cons e t ih =>
    intro ys h
    have he := h e (List.mem_cons_self _ _)
    simp only [List.cons_append, closedTerminal, he, Bool.false_eq_true, if_false]
    exact ih ys (fun x hx => h x (List.mem_cons_of_mem _ hx))

theorem noMention_append {cid : RStr} {xs ys : List QuicEvent} :
    noMentionFor cid (xs ++ ys) = (noMentionFor cid xs && noMentionFor cid ys) := by
  simp [noMentionFor]

theorem noConn_of_noMention {cid : RStr} {evs : List QuicEvent}
    (h : noMentionFor cid evs = true) : noConnFor cid evs = true := by
  simp only [noMentionFor, List.all_eq_true, Bool.not_eq_true'] at h
  simp only [noConnFor, List.all_eq_true, Bool.not_eq_true']
  intro e he
  cases hc : isConnectedFor cid e
  · rfl
  · exact absurd (mentions_of_isConnected hc) (by simp [h e he])

theorem noRel_of_noMention {cid : RStr} {evs : List QuicEvent}
    (h : noMentionFor cid evs = true) :
    ∀ e ∈ evs, isConnectedFor cid e = false ∧ isMsgOrClosedFor cid e = false := by
  simp only [noMentionFor, List.all_eq_true, Bool.not_eq_true'] at h
  intro e he
  constructor
  · cases hc : isConnectedFor cid e
    · rfl
    · exact absurd (mentions_of_isConnected hc) (by simp [h e he])
  · cases hc : isMsgOrClosedFor cid e
    · rfl
    · exact absurd (mentions_of_isMsgOrClosed hc) (by simp [h e he])

/-! ## Client-loop lemmas -/

theorem client_tail_fst (h : Nat) (scid : List Nat) (it : ClientIter) (ann : Bool)
    (evs : List QuicEvent) (calls : List EngineCall) :
    (run_client_worker_tail h scid it ann evs calls).1 = ann := by
  unfold run_client_worker_tail
  split_ifs <;> rfl

theorem client_tail_pred (P : QuicEvent → Prop) (h : Nat) (scid : List Nat)
    (it : ClientIter) (ann : Bool) (evs : List QuicEvent) (calls : List EngineCall)
    (hevs : ∀ e ∈ evs, P e)
    (hmsg : ∀ d, P (QuicEvent.message h (hex_string scid) d))
    (hcl : P (QuicEvent.closed h (hex_string scid) it.peerErr)) :
    ∀ e ∈ (run_client_worker_tail h scid it ann evs calls).2.1, P e := by
  simp only [run_client_worker_tail]
  by_cases hc : it.closed = true
  · rw [if_pos hc]
    intro e he
    simp only [List.mem_append, List.mem_map, List.mem_singleton] at he
    rcases he with (he | ⟨d, _, hd⟩) | rfl
    · exact hevs e he
    · rw [← hd]; exact hmsg d
    · exact hcl
  · rw [if_neg hc]
    intro e he
    simp only [List.mem_append, List.mem_map] at he
    rcases he with he | ⟨d, _, hd⟩
    · exact hevs e he
    · rw [← hd]; exact hmsg d

theorem client_iter_ids (h : Nat) (hf : List Nat → List Nat) (efp : RStr)
    (scid : List Nat) (ann : Bool) (it : ClientIter) :
    ∀ e ∈ (run_client_worker_iter h hf efp scid ann it).2.1,
      eventConnId e = some (hex_string scid) := by
  rcases it with ⟨cmds, ed, sr, rr, est, pc, rd, cl, pe, td⟩
  cases sr <;> cases rr <;>
    simp only [run_client_worker_iter] <;>
    (try split_ifs) <;>
    first
      | (simp [eventConnId]; done)
      | (apply client_tail_pred <;> simp [eventConnId])

theorem client_iter_ann_true (h : Nat) (hf : List Nat → List Nat) (efp : RStr)
    (scid : List Nat) (it : ClientIter) :
    (run_client_worker_iter h hf efp scid true it).1 = true ∧
    (∀ e ∈ (run_client_worker_iter h hf efp scid true it).2.1,
      isConnectedEvt e = false) := by
  rcases it with ⟨cmds, ed, sr, rr, est, pc, rd, cl, pe, td⟩
  cases sr <;> cases rr <;>
    simp only [run_client_worker_iter, Bool.not_true, Bool.and_false,
      Bool.false_eq_true, if_false] <;>
    first
      | (simp [isConnectedEvt]; done)
      | (refine ⟨client_tail_fst _ _ _ _ _ _, ?_⟩
         apply client_tail_pred <;> simp [isConnectedEvt])

theorem client_run_ids (h : Nat) (hf : List Nat → List Nat) (efp : RStr)
    (scid : List Nat) :
    ∀ (trace : List ClientIter) (ann : Bool),
    ∀ e ∈ run_client_worker h hf efp scid ann trace,
      eventConnId e = some (hex_string scid) := by
  intro trace
  induction trace with
  | nil => intro ann e he; simp [run_client_worker] at he
  | cons it rest ih =>
    intro ann e he
    simp only [run_client_worker] at he
    rcases hit : run_client_worker_iter h hf efp scid ann it with ⟨ann', evs, calls, oc⟩
    rw [hit] at he
    have hids := client_iter_ids h hf efp scid ann it
    rw [hit] at hids
    cases oc with
    | brk => exact hids e he
    | next =>
      rcases List.mem_append.mp he with hm | hm
      · exact hids e hm
      · exact ih ann' e hm

theorem client_run_true_noConn (h : Nat) (hf : List Nat → List Nat) (efp : RStr)
    (scid : List Nat) :
    ∀ (trace : List ClientIter),
    ∀ e ∈ run_client_worker h hf efp scid true trace, isConnectedEvt e = false := by
  intro trace
  induction trace with
  | nil => intro e he; simp [run_client_worker] at he
  | cons it rest ih =>
    intro e he
    simp only [run_client_worker] at he
    rcases hit : run_client_worker_iter h hf efp scid true it with ⟨ann', evs, calls, oc⟩
    have hlem := client_iter_ann_true h hf efp scid it
    rw [hit] at hlem he
    obtain ⟨hann, hnoc⟩ := hlem
    subst hann
    cases oc with
    | brk => exact hnoc e he
    | next =>
      rcases List.mem_append.mp he with hm | hm
      · exact hnoc e hm
      · exact ih e hm

/-- Exhaustive description of one client iteration, by announced flag,
emitted events and loop outcome: send-fatal, recv-fatal, fingerprint
mismatch, announce (closing or not), or plain tail (closing or not). -/
theorem client_iter_cases (h : Nat) (hf : List Nat → List Nat) (efp : RStr)
    (scid : List Nat) (ann : Bool) (it : ClientIter) :
    (∃ m, it.sendRes = SendRes.fatal m ∧
      (run_client_worker_iter h hf efp scid ann it).1 = ann ∧
      (run_client_worker_iter h hf efp scid ann it).2.1 =
        [QuicEvent.error h (some (hex_string scid)) ("quic send error: " ++ m)] ∧
      (run_client_worker_iter h hf efp scid ann it).2.2.2 = .brk) ∨
    (∃ m, it.recvRes = RecvRes.fatal m ∧
      (run_client_worker_iter h hf efp scid ann it).1 = ann ∧
      (run_client_worker_iter h hf efp scid ann it).2.1 = [] ∧
      (run_client_worker_iter h hf efp scid ann it).2.2.2 = .brk) ∨
    ((it.established && !ann) = true ∧
      (!efp.isEmpty && !(rstrLower (clientPeerFp hf it) == efp)) = true ∧
      (run_client_worker_iter h hf efp scid ann it).1 = true ∧
      (run_client_worker_iter h hf efp scid ann it).2.1 =
        [QuicEvent.error h (some (hex_string scid)) "server fingerprint mismatch"] ∧
      (run_client_worker_iter h hf efp scid ann it).2.2.2 = .brk) ∨
    ((it.established && !ann) = true ∧
      (!efp.isEmpty && !(rstrLower (clientPeerFp hf it) == efp)) = false ∧
      it.closed = true ∧
      (run_client_worker_iter h hf efp scid ann it).1 = true ∧
      (run_client_worker_iter h hf efp scid ann it).2.1 =
        QuicEvent.connected h (hex_string scid) (clientPeerFp hf it) ::
          (clientMsgs h scid it ++ [QuicEvent.closed h (hex_string scid) it.peerErr]) ∧
      (run_client_worker_iter h hf efp scid ann it).2.2.2 = .brk) ∨
    ((it.established && !ann) = true ∧
      (!efp.isEmpty && !(rstrLower (clientPeerFp hf it) == efp)) = false ∧
      it.closed = false ∧
      (run_client_worker_iter h hf efp scid ann it).1 = true ∧
      (run_client_worker_iter h hf efp scid ann it).2.1 =
        QuicEvent.connected h (hex_string scid) (clientPeerFp hf it) ::
          clientMsgs h scid it ∧
      (run_client_worker_iter h hf efp scid ann it).2.2.2 = .next) ∨
    ((it.established && !ann) = false ∧ it.closed = true ∧
      (run_client_worker_iter h hf efp scid ann it).1 = ann ∧
      (run_client_worker_iter h hf efp scid ann it).2.1 =
        clientMsgs h scid it ++ [QuicEvent.closed h (hex_string scid) it.peerErr] ∧
      (run_client_worker_iter h hf efp scid ann it).2.2.2 = .brk) ∨
    ((it.established && !ann) = false ∧ it.closed = false ∧
      (run_client_worker_iter h hf efp scid ann it).1 = ann ∧
      (run_client_worker_iter h hf efp scid ann it).2.1 = clientMsgs h scid it ∧
      (run_client_worker_iter h hf efp scid ann it).2.2.2 = .next) := by
  cases hsr : it.sendRes <;> cases hrr : it.recvRes <;>
    first
      | (refine Or.inl ⟨_, rfl, ?_, ?_, ?_⟩ <;> simp [run_client_worker_iter, hsr])
      | (refine Or.inr (Or.inl ⟨_, rfl, ?_, ?_, ?_⟩) <;>
          simp [run_client_worker_iter, hsr, hrr])
      | (by_cases h1 : (it.established && !ann) = true
         · by_cases h2 : (!efp.isEmpty && !(rstrLower (clientPeerFp hf it) == efp)) = true
           · refine Or.inr (Or.inr (Or.inl ⟨h1, h2, ?_, ?_, ?_⟩)) <;>
               simp [run_client_worker_iter, hsr, hrr, h1, h2]
           · have h2' : (!efp.isEmpty && !(rstrLower (clientPeerFp hf it) == efp)) = false := by
               simpa using h2
             cases hcl : it.closed
             · refine Or.inr (Or.inr (Or.inr (Or.inr (Or.inl ⟨h1, h2', rfl, ?_, ?_, ?_⟩)))) <;>
                 simp [run_client_worker_iter, run_client_worker_tail, clientMsgs,
                   hsr, hrr, h1, h2', hcl]
             · refine Or.inr (Or.inr (Or.inr (Or.inl ⟨h1, h2', rfl, ?_, ?_, ?_⟩))) <;>
                 simp [run_client_worker_iter, run_client_worker_tail, clientMsgs,
                   hsr, hrr, h1, h2', hcl]
         · have h1' : (it.established && !ann) = false := by simpa using h1
           cases hcl : it.closed
           · refine Or.inr (Or.inr (Or.inr (Or.inr (Or.inr (Or.inr ⟨h1', rfl, ?_, ?_, ?_⟩))))) <;>
               simp [run_client_worker_iter, run_client_worker_tail, clientMsgs,
                 hsr, hrr, h1', hcl]
           · refine Or.inr (Or.inr (Or.inr (Or.inr (Or.inr (Or.inl ⟨h1', rfl, ?_, ?_, ?_⟩))))) <;>
               simp [run_client_worker_iter, run_client_worker_tail, clientMsgs,
                 hsr, hrr, h1', hcl])

theorem client_run_connOrdered (h : Nat) (hf : List Nat → List Nat) (efp : RStr)
    (scid : List Nat) (cid : RStr) :
    ∀ (trace : List ClientIter),
    (∀ it ∈ trace, it.reads ≠ [] → it.established = true) →
    connOrderedFrom cid false (run_client_worker h hf efp scid false trace) = true := by
  by_cases hcid : cid = hex_string scid
  case neg =>
    intro trace _
    apply connOrderedFrom_of_noConn
    rw [noConnFor, List.all_eq_true]
    intro e he
    rw [Bool.not_eq_true']
    apply isConnected_eventConnId
    rw [client_run_ids h hf efp scid trace false e he]
    intro hcontra
    exact hcid (by injection hcontra with hh; exact hh.symm)
  case pos =>
    subst hcid
    intro trace
    induction trace with
    | nil => intro _; exact connOrderedFrom_nil
    | cons it rest ih =>
      intro He
      have He' := fun it' h' => He it' (List.mem_cons_of_mem _ h')
      have Hehd := He it (List.mem_cons_self _ _)
      have ihr := ih He'
      rcases hit : run_client_worker_iter h hf efp scid false it with ⟨ann', evs, calls, oc⟩
      have hcases := client_iter_cases h hf efp scid false it
      rw [hit] at hcases
      rcases hcases with ⟨m, hm, ha, hevs, hoc⟩ | ⟨m, hm, ha, hevs, hoc⟩ |
        ⟨h1, h2, ha, hevs, hoc⟩ | ⟨h1, h2, hcl, ha, hevs, hoc⟩ |
        ⟨h1, h2, hcl, ha, hevs, hoc⟩ | ⟨h1, hcl, ha, hevs, hoc⟩ | ⟨h1, hcl, ha, hevs, hoc⟩
      · replace ha : ann' = false := ha
        replace hevs : evs = _ := hevs
        replace hoc : oc = _ := hoc
        subst ha; subst hevs; subst hoc
        simp only [run_client_worker, hit]
        simp [connOrderedFrom, isConnectedFor, isMsgOrClosedFor]
      · replace ha : ann' = false := ha
        replace hevs : evs = [] := hevs
        replace hoc : oc = _ := hoc
        subst ha; subst hevs; subst hoc
        simp only [run_client_worker, hit]
        exact connOrderedFrom_nil
      · replace ha : ann' = true := ha
        replace hevs : evs = _ := hevs
        replace hoc : oc = _ := hoc
        subst ha; subst hevs; subst hoc
        simp only [run_client_worker, hit]
        simp [connOrderedFrom, isConnectedFor, isMsgOrClosedFor]
      · replace ha : ann' = true := ha
        replace hevs : evs = _ := hevs
        replace hoc : oc = _ := hoc
        subst ha; subst hevs; subst hoc
        simp only [run_client_worker, hit]
        simp only [connOrderedFrom, isConnectedFor, beq_self_eq_true, if_true]
        apply connOrderedFrom_of_noConn
        simp [noConnFor, clientMsgs, isConnectedFor, List.all_append, List.all_map]
      · replace ha : ann' = true := ha
        replace hevs : evs = _ := hevs
        replace hoc : oc = _ := hoc
        subst ha; subst hevs; subst hoc
        simp only [run_client_worker, hit]
        rw [List.cons_append]
        simp only [connOrderedFrom, isConnectedFor, beq_self_eq_true, if_true]
        apply connOrderedFrom_of_noConn
        rw [noConnFor, List.all_eq_true]
        intro e he
        rw [Bool.not_eq_true']
        rcases List.mem_append.mp he with hm2 | hm2
        · simp only [clientMsgs, List.mem_map] at hm2
          obtain ⟨d, _, rfl⟩ := hm2
          rfl
        · exact isConnected_of_isConnectedEvt
            (client_run_true_noConn h hf efp scid rest e hm2)
      · replace ha : ann' = false := ha
        replace hevs : evs = _ := hevs
        replace hoc : oc = _ := hoc
        subst ha; subst hevs; subst hoc
        simp only [run_client_worker, hit]
        have hest : it.established = false := by simpa using h1
        have hrd : it.reads = [] := by
          by_contra hne
          rw [Hehd hne] at hest
          exact absurd hest (by simp)
        simp [clientMsgs, hrd, connOrderedFrom, isConnectedFor, isMsgOrClosedFor]
      · replace ha : ann' = false := ha
        replace hevs : evs = _ := hevs
        replace hoc : oc = _ := hoc
        subst ha; subst hevs; subst hoc
        simp only [run_client_worker, hit]
        have hest : it.established = false := by simpa using h1
        have hrd : it.reads = [] := by
          by_contra hne
          rw [Hehd hne] at hest
          exact absurd hest (by simp)
        simpa [clientMsgs, hrd] using ihr

theorem client_run_closedTerminal (h : Nat) (hf : List Nat → List Nat) (efp : RStr)
    (scid : List Nat) (cid : RStr) :
    ∀ (trace : List ClientIter) (ann : Bool),
    closedTerminal cid (run_client_worker h hf efp scid ann trace) = true := by
  intro trace
  induction trace with
  | nil => intro _; rfl
  | cons it rest ih =>
    intro ann
    rcases hit : run_client_worker_iter h hf efp scid ann it with ⟨ann', evs, calls, oc⟩
    have hcases := client_iter_cases h hf efp scid ann it
    rw [hit] at hcases
    rcases hcases with ⟨m, hm, ha, hevs, hoc⟩ | ⟨m, hm, ha, hevs, hoc⟩ |
      ⟨h1, h2, ha, hevs, hoc⟩ | ⟨h1, h2, hcl, ha, hevs, hoc⟩ |
      ⟨h1, h2, hcl, ha, hevs, hoc⟩ | ⟨h1, hcl, ha, hevs, hoc⟩ | ⟨h1, hcl, ha, hevs, hoc⟩
    · replace hevs : evs = _ := hevs
      replace hoc : oc = _ := hoc
      subst hevs; subst hoc
      simp only [run_client_worker, hit]
      simp [closedTerminal, isClosedFor]
    · replace hevs : evs = [] := hevs
      replace hoc : oc = _ := hoc
      subst hevs; subst hoc
      simp only [run_client_worker, hit]
      rfl
    · replace hevs : evs = _ := hevs
      replace hoc : oc = _ := hoc
      subst hevs; subst hoc
      simp only [run_client_worker, hit]
      simp [closedTerminal, isClosedFor]
    · replace hevs : evs = _ := hevs
      replace hoc : oc = _ := hoc
      subst hevs; subst hoc
      simp only [run_client_worker, hit]
      rw [← List.cons_append,
        closedTerminal_append_of_noClosed _ (by
          simp [clientMsgs, isClosedFor, List.forall_mem_cons, List.forall_mem_map])]
      cases hb : isClosedFor cid (QuicEvent.closed h (hex_string scid) it.peerErr) <;>
        simp [closedTerminal, hb, noMentionFor]
    · replace hevs : evs = _ := hevs
      replace hoc : oc = _ := hoc
      subst hevs; subst hoc
      simp only [run_client_worker, hit]
      rw [closedTerminal_append_of_noClosed _ (by
        simp [clientMsgs, isClosedFor, List.forall_mem_cons, List.forall_mem_map])]
      exact ih ann'
    · replace hevs : evs = _ := hevs
      replace hoc : oc = _ := hoc
      subst hevs; subst hoc
      simp only [run_client_worker, hit]
      rw [closedTerminal_append_of_noClosed _ (by
        simp [clientMsgs, isClosedFor, List.forall_mem_map])]
      cases hb : isClosedFor cid (QuicEvent.closed h (hex_string scid) it.peerErr) <;>
        simp [closedTerminal, hb, noMentionFor]
    · replace hevs : evs = _ := hevs
      replace hoc : oc = _ := hoc
      subst hevs; subst hoc
      simp only [run_client_worker, hit]
      rw [closedTerminal_append_of_noClosed _ (by
        simp [clientMsgs, isClosedFor, List.forall_mem_map])]
      exact ih ann'

/-! ## Server-loop lemmas -/

theorem mem_insertKey {k a : List Nat} {l : List (List Nat)} :
    a ∈ insertKey k l ↔ a ∈ l ∨ a = k := by
  unfold insertKey
  split
  · rename_i hc
    simp only [List.elem_eq_mem, decide_eq_true_eq] at hc
    constructor
    · exact Or.inl
    · rintro (hm | rfl)
      · exact hm
      · exact hc
  · simp [List.mem_append]

theorem contains_insertKey_ne {k a : List Nat} {l : List (List Nat)}
    (hne : a ≠ k) : (insertKey k l).contains a = l.contains a := by
  unfold insertKey
  split
  · rfl
  · simp [hne]

theorem containsHex_false_iff {cid : RStr} {l : List (List Nat)} :
    containsHex cid l = false ↔ ∀ j ∈ l, hex_string j ≠ cid := by
  simp [containsHex]

theorem containsHex_mono {cid : RStr} {l l' : List (List Nat)}
    (hsub : ∀ a ∈ l', a ∈ l) (h : containsHex cid l = false) :
    containsHex cid l' = false := by
  rw [containsHex_false_iff] at h ⊢
  exact fun j hj => h j (hsub j hj)

theorem containsHex_insertKey {cid : RStr} {k : List Nat} {l : List (List Nat)}
    (hk : hex_string k ≠ cid) (h : containsHex cid l = false) :
    containsHex cid (insertKey k l) = false := by
  rw [containsHex_false_iff] at h ⊢
  intro j hj
  rcases mem_insertKey.mp hj with hm | rfl
  · exact h j hm
  · exact hk

theorem containsHex_eq_contains {cid : RStr} {j : List Nat}
    (hj : hex_string j = cid) (l : List (List Nat)) :
    containsHex cid l = l.contains j := by
  cases hc : l.contains j
  · rw [containsHex_false_iff]
    intro a ha hhex
    have : a = j := hex_string_inj (hhex.trans hj.symm)
    subst this
    simp only [List.elem_eq_mem, decide_eq_true_eq] at hc
    simp at hc
    exact hc ha
  · simp only [List.elem_eq_mem, decide_eq_true_eq] at hc
    simp only [containsHex, List.any_eq_true]
    exact ⟨j, hc, by simp [hj]⟩

theorem nodup_hex_insertKey {k : List Nat} {l : List (List Nat)}
    (hnd : (l.map hex_string).Nodup) (hk : containsHex (hex_string k) l = false) :
    ((insertKey k l).map hex_string).Nodup := by
  unfold insertKey
  split
  · exact hnd
  · rw [List.map_append, List.map_singleton]
    apply List.Nodup.append hnd (List.nodup_singleton _)
    intro x hx hx2
    simp only [List.mem_singleton] at hx2
    subst hx2
    rw [containsHex_false_iff] at hk
    simp only [List.mem_map] at hx
    obtain ⟨a, ha, hha⟩ := hx
    exact hk a ha hha

theorem nodup_hex_filter {p : List Nat → Bool} {l : List (List Nat)}
    (hnd : (l.map hex_string).Nodup) :
    ((l.filter p).map hex_string).Nodup := by
  exact (List.Sublist.map hex_string (List.filter_sublist l)).nodup hnd

/-- A connection's pass depends on the announced set only through
membership of its own id. -/
theorem server_conn_pass_congr (h : Nat) (hf : List Nat → List Nat)
    (allow : List RStr) {ann1 ann2 : List (List Nat)} (id : List Nat) (o : ConnObs)
    (hc : ann1.contains id = ann2.contains id) :
    server_conn_pass h hf allow ann1 id o = server_conn_pass h hf allow ann2 id o := by
  cases hsr : o.sendRes <;> simp only [server_conn_pass, hsr, hc]

/-- Exhaustive description of one connection's slice of the server pass:
events, newly-announced flag and removal flag. -/
theorem server_conn_pass_cases (h : Nat) (hf : List Nat → List Nat)
    (allow : List RStr) (ann : List (List Nat)) (id : List Nat) (o : ConnObs) :
    (∃ m, o.sendRes = SendRes.fatal m ∧
      (server_conn_pass h hf allow ann id o).1 =
        [QuicEvent.error h (some (hex_string id)) ("server send error: " ++ m)] ∧
      (server_conn_pass h hf allow ann id o).2.2 = (false, true)) ∨
    ((o.established && !(ann.contains id)) = true ∧
      (!allow.isEmpty && !(allow.contains (serverPeerFp hf o))) = true ∧
      (server_conn_pass h hf allow ann id o).1 = [] ∧
      (server_conn_pass h hf allow ann id o).2.2 = (false, true)) ∨
    ((o.established && !(ann.contains id)) = true ∧
      (!allow.isEmpty && !(allow.contains (serverPeerFp hf o))) = false ∧
      o.closed = true ∧
      (server_conn_pass h hf allow ann id o).1 =
        QuicEvent.connected h (hex_string id) (serverPeerFp hf o) ::
          (serverMsgs h id o ++ [QuicEvent.closed h (hex_string id) o.peerErr]) ∧
      (server_conn_pass h hf allow ann id o).2.2 = (true, true)) ∨
    ((o.established && !(ann.contains id)) = true ∧
      (!allow.isEmpty && !(allow.contains (serverPeerFp hf o))) = false ∧
      o.closed = false ∧
      (server_conn_pass h hf allow ann id o).1 =
        QuicEvent.connected h (hex_string id) (serverPeerFp hf o) :: serverMsgs h id o ∧
      (server_conn_pass h hf allow ann id o).2.2 = (true, false)) ∨
    ((o.established && !(ann.contains id)) = false ∧ o.closed = true ∧
      (server_conn_pass h hf allow ann id o).1 =
        serverMsgs h id o ++ [QuicEvent.closed h (hex_string id) o.peerErr] ∧
      (server_conn_pass h hf allow ann id o).2.2 = (false, true)) ∨
    ((o.established && !(ann.contains id)) = false ∧ o.closed = false ∧
      (server_conn_pass h hf allow ann id o).1 = serverMsgs h id o ∧
      (server_conn_pass h hf allow ann id o).2.2 = (false, false)) := by
  cases hsr : o.sendRes <;>
    first
      | (refine Or.inl ⟨_, rfl, ?_, ?_⟩ <;> simp [server_conn_pass, hsr])
      | (by_cases h1 : (o.established && !(ann.contains id))  = true
         · by_cases h2 : (!allow.isEmpty && !(allow.contains (serverPeerFp hf o))) = true
           · refine Or.inr (Or.inl ⟨h1, h2, ?_, ?_⟩) <;>
               (simp only [server_conn_pass, hsr, h1, h2]; simp)
           · have h2' : (!allow.isEmpty && !(allow.contains (serverPeerFp hf o))) = false := by
               simpa using h2
             cases hcl : o.closed
             · refine Or.inr (Or.inr (Or.inr (Or.inl ⟨h1, h2', rfl, ?_, ?_⟩))) <;>
                 (simp only [server_conn_pass, server_conn_tail, hsr, h1, h2', hcl]
                  simp [serverMsgs])
             · refine Or.inr (Or.inr (Or.inl ⟨h1, h2', rfl, ?_, ?_⟩)) <;>
                 (simp only [server_conn_pass, server_conn_tail, hsr, h1, h2', hcl]
                  simp [serverMsgs])
         · have h1' : (o.established && !(ann.contains id)) = false := by simpa using h1
           cases hcl : o.closed
           · refine Or.inr (Or.inr (Or.inr (Or.inr (Or.inr ⟨h1', rfl, ?_, ?_⟩)))) <;>
               (simp only [server_conn_pass, server_conn_tail, hsr, h1', hcl]
                simp [serverMsgs])
           · refine Or.inr (Or.inr (Or.inr (Or.inr (Or.inl ⟨h1', rfl, ?_, ?_⟩)))) <;>
               (simp only [server_conn_pass, server_conn_tail, hsr, h1', hcl]
                simp [serverMsgs]))

/-- Every event one connection's pass emits carries that connection's hex
id. -/
theorem server_conn_pass_ids (h : Nat) (hf : List Nat → List Nat)
    (allow : List RStr) (ann : List (List Nat)) (id : List Nat) (o : ConnObs) :
    ((server_conn_pass h hf allow ann id o).1).all
      (fun e => eventConnId e == some (hex_string id)) = true := by
  rcases server_conn_pass_cases h hf allow ann id o with
    ⟨m, hm, hevs, hfl⟩ | ⟨h1, h2, hevs, hfl⟩ | ⟨h1, h2, hcl, hevs, hfl⟩ |
    ⟨h1, h2, hcl, hevs, hfl⟩ | ⟨h1, hcl, hevs, hfl⟩ | ⟨h1, hcl, hevs, hfl⟩ <;>
    rw [hevs] <;>
    simp [serverMsgs, eventConnId, List.all_append, List.all_map]

theorem server_conn_pass_mem_ids {h : Nat} {hf : List Nat → List Nat}
    {allow : List RStr} {ann : List (List Nat)} {id : List Nat} {o : ConnObs}
    {e : QuicEvent} (he : e ∈ (server_conn_pass h hf allow ann id o).1) :
    eventConnId e = some (hex_string id) := by
  have := List.all_eq_true.mp (server_conn_pass_ids h hf allow ann id o) e he
  simpa using this

theorem noMention_of_ids {x cid : RStr} {evs : List QuicEvent}
    (hall : evs.all (fun e => eventConnId e == some x) = true) (hne : x ≠ cid) :
    noMentionFor cid evs = true := by
  rw [noMentionFor, List.all_eq_true]
  intro e he
  have hid := List.all_eq_true.mp hall e he
  simp only [beq_iff_eq] at hid
  simp [mentionsFor, hid, hne]

/-- Pass over connections none of which has hex id `cid`: no event for
`cid`, and the announced set and removal list are unchanged at any raw id
whose hex is `cid`. -/
theorem server_pass_out (h : Nat) (hf : List Nat → List Nat) (allow : List RStr)
    (obs : List Nat → ConnObs) (cid : RStr) :
    ∀ (L : List (List Nat)) (ann : List (List Nat)),
    (∀ j ∈ L, hex_string j ≠ cid) →
    noMentionFor cid (server_pass h hf allow obs ann L).1 = true ∧
    (∀ a, hex_string a = cid →
      ((server_pass h hf allow obs ann L).2.2.1.contains a = ann.contains a ∧
       (server_pass h hf allow obs ann L).2.2.2.contains a = false)) := by
  intro L
  induction L with
  | nil =>
    intro ann _
    exact ⟨rfl, fun a _ => ⟨rfl, rfl⟩⟩
  | cons j rest ih =>
    intro ann hL
    have hj : hex_string j ≠ cid := hL j (List.mem_cons_self _ _)
    have hrest := fun j' hj' => hL j' (List.mem_cons_of_mem _ hj')
    have ihr := ih (if (server_conn_pass h hf allow ann j (obs j)).2.2.1 then
      insertKey j ann else ann) hrest
    constructor
    · simp only [server_pass]
      rw [noMention_append]
      rw [noMention_of_ids (server_conn_pass_ids h hf allow ann j (obs j)) hj]
      simpa using ihr.1
    · intro a ha
      have haj : a ≠ j := fun hh => hj (hh ▸ ha)
      have hins : (if (server_conn_pass h hf allow ann j (obs j)).2.2.1 then
          insertKey j ann else ann).contains a = ann.contains a := by
        split
        · exact contains_insertKey_ne haj
        · rfl
      constructor
      · simp only [server_pass]
        rw [(ihr.2 a ha).1, hins]
      · simp only [server_pass]
        have h2 : a ∉ (server_pass h hf allow obs
            (if (server_conn_pass h hf allow ann j (obs j)).2.2.1 then
              insertKey j ann else ann) rest).2.2.2 := by
          simpa using (ihr.2 a ha).2
        cases hcl2 : (server_conn_pass h hf allow ann j (obs j)).2.2.2 <;>
          simp [hcl2, haj, h2]

theorem containsHex_insertKey_ne {cid : RStr} {k : List Nat} {l : List (List Nat)}
    (hk : hex_string k ≠ cid) :
    containsHex cid (insertKey k l) = containsHex cid l := by
  unfold insertKey
  split
  · rfl
  · simp [containsHex, List.any_append, hk]

theorem server_pass_annsub (h : Nat) (hf : List Nat → List Nat) (allow : List RStr)
    (obs : List Nat → ConnObs) :
    ∀ (L ann : List (List Nat)), ∀ a ∈ (server_pass h hf allow obs ann L).2.2.1,
      a ∈ ann ∨ a ∈ L := by
  intro L
  induction L with
  | nil => intro ann a ha; exact Or.inl ha
  | cons j rest ih =>
    intro ann a ha
    simp only [server_pass] at ha
    rcases ih _ a ha with hm | hm
    · by_cases hadd : (server_conn_pass h hf allow ann j (obs j)).2.2.1 = true
      · rw [if_pos hadd] at hm
        rcases mem_insertKey.mp hm with hm2 | rfl
        · exact Or.inl hm2
        · exact Or.inr (List.mem_cons_self _ _)
      · rw [if_neg hadd] at hm
        exact Or.inl hm
    · exact Or.inr (List.mem_cons_of_mem _ hm)

theorem server_pass_toClose_sub (h : Nat) (hf : List Nat → List Nat)
    (allow : List RStr) (obs : List Nat → ConnObs) :
    ∀ (L ann : List (List Nat)), ∀ a ∈ (server_pass h hf allow obs ann L).2.2.2,
      a ∈ L := by
  intro L
  induction L with
  | nil => intro ann a ha; simp [server_pass] at ha
  | cons j rest ih =>
    intro ann a ha
    simp only [server_pass] at ha
    rcases List.mem_append.mp ha with hm | hm
    · split at hm
      · simp only [List.mem_singleton] at hm
        subst hm
        exact List.mem_cons_self _ _
      · simp at hm
    · exact List.mem_cons_of_mem _ (ih _ a hm)

theorem noConn_serverMsgs {cid : RStr} (h : Nat) (j : List Nat) (o : ConnObs) :
    noConnFor cid (serverMsgs h j o) = true := by
  simp [noConnFor, serverMsgs, List.all_map, isConnectedFor, Function.comp]

theorem noConn_append {cid : RStr} {xs ys : List QuicEvent} :
    noConnFor cid (xs ++ ys) = (noConnFor cid xs && noConnFor cid ys) := by
  simp [noConnFor]

theorem contains_insertKey_self {k : List Nat} {l : List (List Nat)} :
    (insertKey k l).contains k = true := by
  unfold insertKey
  split
  · assumption
  · simp

/-- The heart of the Connected-once-and-first property for the server: one
pass keeps the scan predicate true, and afterwards either the id is
announced and kept, or no live connection with that hex id remains. -/
theorem server_pass_connOrdered (h : Nat) (hf : List Nat → List Nat)
    (allow : List RStr) (obs : List Nat → ConnObs) (cid : RStr) :
    ∀ (L ann : List (List Nat)),
    ((L.map hex_string).Nodup) →
    (∀ j ∈ L, (obs j).reads ≠ [] → (obs j).established = true) →
    (connOrderedFrom cid (containsHex cid ann)
        (server_pass h hf allow obs ann L).1 = true) ∧
    (lockAfter cid (containsHex cid ann) (server_pass h hf allow obs ann L).1 = false →
      containsHex cid (server_pass h hf allow obs ann L).2.2.1 = false) ∧
    (lockAfter cid (containsHex cid ann) (server_pass h hf allow obs ann L).1 = true →
      containsHex cid ((server_pass h hf allow obs ann L).2.2.1.filter
        (fun a => !((server_pass h hf allow obs ann L).2.2.2.contains a))) = true ∨
      containsHex cid (L.filter
        (fun a => !((server_pass h hf allow obs ann L).2.2.2.contains a))) = false) := by
  intro L
  induction L with
  | nil =>
    intro ann _ _
    refine ⟨connOrderedFrom_nil, fun hl => hl, fun hl => Or.inl ?_⟩
    have hfe : (server_pass h hf allow obs ann []).2.2.1.filter
        (fun a => !((server_pass h hf allow obs ann []).2.2.2.contains a)) = ann := by
      simp [server_pass]
    rw [hfe]
    exact hl
  | cons j rest ih =>
    intro ann hnd He
    have hnd' : (hex_string j :: rest.map hex_string).Nodup := by simpa using hnd
    have hndr : (rest.map hex_string).Nodup := (List.nodup_cons.mp hnd').2
    have hjr : hex_string j ∉ rest.map hex_string := (List.nodup_cons.mp hnd').1
    have Her := fun j' hj' => He j' (List.mem_cons_of_mem _ hj')
    have Hej := He j (List.mem_cons_self _ _)
    by_cases hcj : hex_string j = cid
    case neg =>
      have hnm : noMentionFor cid (server_conn_pass h hf allow ann j (obs j)).1 = true :=
        noMention_of_ids (server_conn_pass_ids h hf allow ann j (obs j)) hcj
      have hlockA : ∀ b, lockAfter cid b (server_conn_pass h hf allow ann j (obs j)).1 = b :=
        fun b => lockAfter_of_noRel b (noRel_of_noMention hnm)
      have hann1 : containsHex cid (if (server_conn_pass h hf allow ann j (obs j)).2.2.1 then
          insertKey j ann else ann) = containsHex cid ann := by
        split
        · exact containsHex_insertKey_ne hcj
        · rfl
      obtain ⟨ihA, ihB, ihC⟩ := ih (if (server_conn_pass h hf allow ann j (obs j)).2.2.1 then
        insertKey j ann else ann) hndr Her
      rw [hann1] at ihA ihB ihC
      refine ⟨?_, ?_, ?_⟩
      · simp only [server_pass]
        rw [connOrderedFrom_append, hlockA]
        rw [connOrderedFrom_of_noConn (noConn_of_noMention hnm)]
        simpa using ihA
      · simp only [server_pass]
        intro hl
        rw [lockAfter_append, hlockA] at hl
        exact ihB hl
      · simp only [server_pass]
        intro hl
        rw [lockAfter_append, hlockA] at hl
        rcases ihC hl with hleft | hright
        · left
          simp only [containsHex, List.any_eq_true] at hleft ⊢
          obtain ⟨a, ha, hhex⟩ := hleft
          refine ⟨a, ?_, hhex⟩
          rw [List.mem_filter] at ha ⊢
          obtain ⟨ha1, ha2⟩ := ha
          refine ⟨ha1, ?_⟩
          have hane : a ≠ j := by
            intro hh
            subst hh
            exact hcj (by simpa using hhex)
          have ha2' : a ∉ (server_pass h hf allow obs
              (if (server_conn_pass h hf allow ann j (obs j)).2.2.1 then
                insertKey j ann else ann) rest).2.2.2 := by
            simpa using ha2
          cases hclj : (server_conn_pass h hf allow ann j (obs j)).2.2.2 <;>
            simp [hclj, hane, ha2']
        · right
          rw [containsHex_false_iff] at hright ⊢
          intro a ha hhex
          rw [List.mem_filter] at ha
          obtain ⟨hmem, hpred⟩ := ha
          rcases List.mem_cons.mp hmem with rfl | hmem2
          · exact hcj hhex
          · refine hright a ?_ hhex
            rw [List.mem_filter]
            refine ⟨hmem2, ?_⟩
            have hnotin : a ∉ (server_pass h hf allow obs
                (if (server_conn_pass h hf allow ann j (obs j)).2.2.1 then
                  insertKey j ann else ann) rest).2.2.2 := by
              have hx := hpred
              rw [Bool.not_eq_true'] at hx
              intro hh
              have hy : ((if (server_conn_pass h hf allow ann j (obs j)).2.2.2 then
                  [j] else []) ++ (server_pass h hf allow obs
                    (if (server_conn_pass h hf allow ann j (obs j)).2.2.1 then
                      insertKey j ann else ann) rest).2.2.2).contains a = true := by
                cases hc2 : (server_conn_pass h hf allow ann j (obs j)).2.2.2 <;>
                  simp [hc2, hh]
              rw [hy] at hx
              exact absurd hx (by simp)
            simpa using hnotin
    case pos =>
      subst hcj
      have hrne : ∀ a ∈ rest, hex_string a ≠ hex_string j := by
        intro a ha hh
        exact hjr (by rw [← hh]; exact List.mem_map_of_mem _ ha)
      obtain ⟨hout1, hout2⟩ := server_pass_out h hf allow obs (hex_string j) rest
        (if (server_conn_pass h hf allow ann j (obs j)).2.2.1 then insertKey j ann else ann)
        hrne
      have hbit : containsHex (hex_string j) ann = ann.contains j :=
        containsHex_eq_contains rfl ann
      obtain ⟨hannj, htoClj⟩ := hout2 j rfl
      have hannHex : containsHex (hex_string j) (server_pass h hf allow obs
          (if (server_conn_pass h hf allow ann j (obs j)).2.2.1 then
            insertKey j ann else ann) rest).2.2.1 =
          (server_pass h hf allow obs
            (if (server_conn_pass h hf allow ann j (obs j)).2.2.1 then
              insertKey j ann else ann) rest).2.2.1.contains j :=
        containsHex_eq_contains rfl _
      have hlockRR : ∀ b, lockAfter (hex_string j) b (server_pass h hf allow obs
          (if (server_conn_pass h hf allow ann j (obs j)).2.2.1 then
            insertKey j ann else ann) rest).1 = b :=
        fun b => lockAfter_of_noRel b (noRel_of_noMention hout1)
      have hRRconn : ∀ b, connOrderedFrom (hex_string j) b (server_pass h hf allow obs
          (if (server_conn_pass h hf allow ann j (obs j)).2.2.1 then
            insertKey j ann else ann) rest).1 = true :=
        fun _ => connOrderedFrom_of_noConn (noConn_of_noMention hout1)
      rcases server_conn_pass_cases h hf allow ann j (obs j) with
        ⟨m, hm, hevs, hfl⟩ | ⟨hg, hrj, hevs, hfl⟩ | ⟨hg, hrj, hclo, hevs, hfl⟩ |
        ⟨hg, hrj, hclo, hevs, hfl⟩ | ⟨hg, hclo, hevs, hfl⟩ | ⟨hg, hclo, hevs, hfl⟩
      -- B1: engine send failed: one Error event, id removed.
      · have hAdd : (server_conn_pass h hf allow ann j (obs j)).2.2.1 = false := by rw [hfl]
        have hCl : (server_conn_pass h hf allow ann j (obs j)).2.2.2 = true := by rw [hfl]
        refine ⟨?_, ?_, ?_⟩
        · simp only [server_pass]
          rw [connOrderedFrom_append, hevs]
          rw [connOrderedFrom_of_noConn (by
            simp [noConnFor, isConnectedFor] :
            noConnFor (hex_string j)
              [QuicEvent.error h (some (hex_string j)) ("server send error: " ++ m)] = true)]
          rw [lockAfter_of_noRel _ (by simp [isConnectedFor, isMsgOrClosedFor])]
          simp [hRRconn]
        · simp only [server_pass]
          intro hl
          rw [lockAfter_append, hlockRR] at hl
          rw [hevs] at hl
          rw [lockAfter_of_noRel _ (by simp [isConnectedFor, isMsgOrClosedFor])] at hl
          rw [hannHex, hannj, hAdd]
          simpa [hbit] using hl
        · intro hl
          right
          simp only [server_pass]
          rw [containsHex_false_iff]
          intro a ha hhex
          rw [List.mem_filter] at ha
          obtain ⟨hmem, hpred⟩ := ha
          rcases List.mem_cons.mp hmem with rfl | hmem2
          · rw [hCl] at hpred
            simp at hpred
          · exact hrne a hmem2 hhex
      -- B2: untrusted fingerprint: silent close, id removed.
      · have hAdd : (server_conn_pass h hf allow ann j (obs j)).2.2.1 = false := by rw [hfl]
        have hCl : (server_conn_pass h hf allow ann j (obs j)).2.2.2 = true := by rw [hfl]
        refine ⟨?_, ?_, ?_⟩
        · simp only [server_pass]
          rw [connOrderedFrom_append, hevs]
          simp only [connOrderedFrom_nil, lockAfter, Bool.true_and]
          exact hRRconn _
        · simp only [server_pass]
          intro hl
          rw [lockAfter_append, hlockRR] at hl
          rw [hevs] at hl
          simp only [lockAfter] at hl
          rw [hannHex, hannj, hAdd]
          simpa [hbit] using hl
        · intro hl
          right
          simp only [server_pass]
          rw [containsHex_false_iff]
          intro a ha hhex
          rw [List.mem_filter] at ha
          obtain ⟨hmem, hpred⟩ := ha
          rcases List.mem_cons.mp hmem with rfl | hmem2
          · rw [hCl] at hpred
            simp at hpred
          · exact hrne a hmem2 hhex
      -- B3: announce then the connection closes in the same pass.
      · have hAdd : (server_conn_pass h hf allow ann j (obs j)).2.2.1 = true := by rw [hfl]
        have hCl : (server_conn_pass h hf allow ann j (obs j)).2.2.2 = true := by rw [hfl]
        obtain ⟨hestT, hcontf⟩ : (obs j).established = true ∧ ann.contains j = false := by
          simpa using hg
        refine ⟨?_, ?_, ?_⟩
        · simp only [server_pass]
          rw [connOrderedFrom_append, hevs, hbit, hcontf]
          have hstep : connOrderedFrom (hex_string j) false
              (QuicEvent.connected h (hex_string j) (serverPeerFp hf (obs j)) ::
                (serverMsgs h j (obs j) ++
                  [QuicEvent.closed h (hex_string j) (obs j).peerErr])) = true := by
            simp only [connOrderedFrom, isConnectedFor, beq_self_eq_true, if_true]
            apply connOrderedFrom_of_noConn
            rw [noConn_append, noConn_serverMsgs]
            simp [noConnFor, isConnectedFor]
          rw [hstep]
          simp [hRRconn]
        · simp only [server_pass]
          intro hl
          rw [lockAfter_append, hlockRR] at hl
          rw [hevs] at hl
          simp [lockAfter, isConnectedFor, lockAfter_true] at hl
        · intro hl
          right
          simp only [server_pass]
          rw [containsHex_false_iff]
          intro a ha hhex
          rw [List.mem_filter] at ha
          obtain ⟨hmem, hpred⟩ := ha
          rcases List.mem_cons.mp hmem with rfl | hmem2
          · rw [hCl] at hpred
            simp at hpred
          · exact hrne a hmem2 hhex
      -- B4: announce, connection stays: id newly announced and kept.
      · have hAdd : (server_conn_pass h hf allow ann j (obs j)).2.2.1 = true := by rw [hfl]
        have hCl : (server_conn_pass h hf allow ann j (obs j)).2.2.2 = false := by rw [hfl]
        obtain ⟨hestT, hcontf⟩ : (obs j).established = true ∧ ann.contains j = false := by
          simpa using hg
        refine ⟨?_, ?_, ?_⟩
        · simp only [server_pass]
          rw [connOrderedFrom_append, hevs, hbit, hcontf]
          have hstep : connOrderedFrom (hex_string j) false
              (QuicEvent.connected h (hex_string j) (serverPeerFp hf (obs j)) ::
                serverMsgs h j (obs j)) = true := by
            simp only [connOrderedFrom, isConnectedFor, beq_self_eq_true, if_true]
            exact connOrderedFrom_of_noConn (noConn_serverMsgs h j (obs j))
          rw [hstep]
          simp [hRRconn]
        · simp only [server_pass]
          intro hl
          rw [lockAfter_append, hlockRR] at hl
          rw [hevs] at hl
          simp [lockAfter, isConnectedFor, lockAfter_true] at hl
        · intro hl
          left
          simp only [server_pass]
          simp only [containsHex, List.any_eq_true]
          refine ⟨j, ?_, by simp⟩
          rw [List.mem_filter]
          constructor
          · have : (server_pass h hf allow obs
                (if (server_conn_pass h hf allow ann j (obs j)).2.2.1 then
                  insertKey j ann else ann) rest).2.2.1.contains j = true := by
              rw [hannj, hAdd]
              simp only [if_true]
              exact contains_insertKey_self
            simpa using this
          · rw [hCl]
            simp only [Bool.false_eq_true, if_false, List.nil_append]
            simpa using htoClj
      -- B5: already-announced or not-established connection closes.
      · have hAdd : (server_conn_pass h hf allow ann j (obs j)).2.2.1 = false := by rw [hfl]
        have hCl : (server_conn_pass h hf allow ann j (obs j)).2.2.2 = true := by rw [hfl]
        refine ⟨?_, ?_, ?_⟩
        · simp only [server_pass]
          rw [connOrderedFrom_append, hevs]
          have hstep : ∀ b, connOrderedFrom (hex_string j) b
              (serverMsgs h j (obs j) ++
                [QuicEvent.closed h (hex_string j) (obs j).peerErr]) = true := by
            intro b
            apply connOrderedFrom_of_noConn
            rw [noConn_append, noConn_serverMsgs]
            simp [noConnFor, isConnectedFor]
          rw [hstep]
          simp [hRRconn]
        · simp only [server_pass]
          intro hl
          rw [lockAfter_append, hlockRR] at hl
          rw [hevs] at hl
          rw [lockAfter_append] at hl
          simp [lockAfter, isMsgOrClosedFor, lockAfter_true] at hl
        · intro hl
          right
          simp only [server_pass]
          rw [containsHex_false_iff]
          intro a ha hhex
          rw [List.mem_filter] at ha
          obtain ⟨hmem, hpred⟩ := ha
          rcases List.mem_cons.mp hmem with rfl | hmem2
          · rw [hCl] at hpred
            simp at hpred
          · exact hrne a hmem2 hhex
      -- B6: already-announced or not-established connection stays.
      · have hAdd : (server_conn_pass h hf allow ann j (obs j)).2.2.1 = false := by rw [hfl]
        have hCl : (server_conn_pass h hf allow ann j (obs j)).2.2.2 = false := by rw [hfl]
        refine ⟨?_, ?_, ?_⟩
        · simp only [server_pass]
          rw [connOrderedFrom_append, hevs]
          rw [connOrderedFrom_of_noConn (noConn_serverMsgs h j (obs j))]
          simp [hRRconn]
        · simp only [server_pass]
          intro hl
          rw [lockAfter_append, hlockRR] at hl
          rw [hevs] at hl
          cases hbitv : ann.contains j
          · have hest : (obs j).established = false := by
              rw [hbitv] at hg
              simpa using hg
            have hrd : (obs j).reads = [] := by
              by_contra hne
              rw [Hej hne] at hest
              exact absurd hest (by simp)
            rw [hannHex, hannj, hAdd]
            simpa using hbitv
          · rw [hbit, hbitv] at hl
            rw [lockAfter_true] at hl
            exact absurd hl (by simp)
        · intro hl
          left
          simp only [server_pass]
          simp only [containsHex, List.any_eq_true]
          refine ⟨j, ?_, by simp⟩
          rw [List.mem_filter]
          constructor
          · have hbitv : ann.contains j = true := by
              by_contra hbf
              have hbf' : ann.contains j = false := by simpa using hbf
              have hest : (obs j).established = false := by
                rw [hbf'] at hg
                simpa using hg
              have hrd : (obs j).reads = [] := by
                by_contra hne
                rw [Hej hne] at hest
                exact absurd hest (by simp)
              simp only [server_pass] at hl
              rw [lockAfter_append, hlockRR, hevs] at hl
              simp only [serverMsgs, hrd, List.map_nil] at hl
              rw [hbit, hbf'] at hl
              exact absurd hl (by simp [lockAfter])
            have : (server_pass h hf allow obs
                (if (server_conn_pass h hf allow ann j (obs j)).2.2.1 then
                  insertKey j ann else ann) rest).2.2.1.contains j = true := by
              rw [hannj, hAdd]
              simp only [Bool.false_eq_true, if_false]
              exact hbitv
            simpa using this
          · rw [hCl]
            simp only [Bool.false_eq_true, if_false, List.nil_append]
            simpa using htoClj

theorem closedTerminal_closed_head {cid : RStr} {e : QuicEvent} {ys : List QuicEvent}
    (he : isClosedFor cid e = true) (hys : noMentionFor cid ys = true) :
    closedTerminal cid (e :: ys) = true := by
  simp [closedTerminal, he, hys]

theorem closedTerminal_cons_notClosed {cid : RStr} {e : QuicEvent}
    {t : List QuicEvent} (he : isClosedFor cid e = false) :
    closedTerminal cid (e :: t) = closedTerminal cid t := by
  simp [closedTerminal, he]

theorem noClosed_of_noMention {cid : RStr} {evs : List QuicEvent}
    (h : noMentionFor cid evs = true) : ∀ e ∈ evs, isClosedFor cid e = false := by
  simp only [noMentionFor, List.all_eq_true, Bool.not_eq_true'] at h
  intro e he
  cases hc : isClosedFor cid e
  · rfl
  · exact absurd (mentions_of_isClosed hc) (by simp [h e he])

theorem containsHex_filter_cons_removed {j : List Nat} {rest : List (List Nat)}
    (hrne : ∀ a ∈ rest, hex_string a ≠ hex_string j)
    {toCl : List (List Nat)} (hj : toCl.contains j = true) :
    containsHex (hex_string j) ((j :: rest).filter (fun a => !(toCl.contains a))) = false := by
  rw [containsHex_false_iff]
  intro a ha hhex
  rw [List.mem_filter] at ha
  obtain ⟨hmem, hpred⟩ := ha
  rcases List.mem_cons.mp hmem with rfl | hmem2
  · rw [hj] at hpred
    simp at hpred
  · exact hrne a hmem2 hhex

/-- The heart of the Closed-is-terminal property for the server: either a
pass emits no Closed for the id, or whatever follows it stays silent about
the id and no live connection with that hex id remains. -/
theorem server_pass_closedTerminal (h : Nat) (hf : List Nat → List Nat)
    (allow : List RStr) (obs : List Nat → ConnObs) (cid : RStr) :
    ∀ (L ann : List (List Nat)),
    ((L.map hex_string).Nodup) →
    ((∀ e ∈ (server_pass h hf allow obs ann L).1, isClosedFor cid e = false) ∨
     ((∀ ys, noMentionFor cid ys = true →
        closedTerminal cid ((server_pass h hf allow obs ann L).1 ++ ys) = true) ∧
      containsHex cid (L.filter
        (fun a => !((server_pass h hf allow obs ann L).2.2.2.contains a))) = false)) := by
  intro L
  induction L with
  | nil =>
    intro ann _
    left
    intro e he
    simp [server_pass] at he
  | cons j rest ih =>
    intro ann hnd
    have hnd' : (hex_string j :: rest.map hex_string).Nodup := by simpa using hnd
    have hndr : (rest.map hex_string).Nodup := (List.nodup_cons.mp hnd').2
    have hjr : hex_string j ∉ rest.map hex_string := (List.nodup_cons.mp hnd').1
    by_cases hcj : hex_string j = cid
    case neg =>
      have hnm : noMentionFor cid (server_conn_pass h hf allow ann j (obs j)).1 = true :=
        noMention_of_ids (server_conn_pass_ids h hf allow ann j (obs j)) hcj
      have hncl := noClosed_of_noMention hnm
      rcases ih (if (server_conn_pass h hf allow ann j (obs j)).2.2.1 then
        insertKey j ann else ann) hndr with ihL | ⟨ihY, ihC⟩
      · left
        simp only [server_pass]
        intro e he
        rcases List.mem_append.mp he with hm | hm
        · exact hncl e hm
        · exact ihL e hm
      · right
        constructor
        · intro ys hys
          simp only [server_pass]
          rw [List.append_assoc]
          rw [closedTerminal_append_of_noClosed _ hncl]
          exact ihY ys hys
        · simp only [server_pass]
          rw [containsHex_false_iff] at ihC ⊢
          intro a ha hhex
          rw [List.mem_filter] at ha
          obtain ⟨hmem, hpred⟩ := ha
          rcases List.mem_cons.mp hmem with rfl | hmem2
          · exact hcj hhex
          · refine ihC a ?_ hhex
            rw [List.mem_filter]
            refine ⟨hmem2, ?_⟩
            have hnotin : a ∉ (server_pass h hf allow obs
                (if (server_conn_pass h hf allow ann j (obs j)).2.2.1 then
                  insertKey j ann else ann) rest).2.2.2 := by
              have hx := hpred
              rw [Bool.not_eq_true'] at hx
              intro hh
              have hy : ((if (server_conn_pass h hf allow ann j (obs j)).2.2.2 then
                  [j] else []) ++ (server_pass h hf allow obs
                    (if (server_conn_pass h hf allow ann j (obs j)).2.2.1 then
                      insertKey j ann else ann) rest).2.2.2).contains a = true := by
                cases hc2 : (server_conn_pass h hf allow ann j (obs j)).2.2.2 <;>
                  simp [hc2, hh]
              rw [hy] at hx
              exact absurd hx (by simp)
            simpa using hnotin
    case pos =>
      subst hcj
      have hrne : ∀ a ∈ rest, hex_string a ≠ hex_string j := by
        intro a ha hh
        exact hjr (by rw [← hh]; exact List.mem_map_of_mem _ ha)
      obtain ⟨hout1, _⟩ := server_pass_out h hf allow obs (hex_string j) rest
        (if (server_conn_pass h hf allow ann j (obs j)).2.2.1 then insertKey j ann else ann)
        hrne
      have hnclRR := noClosed_of_noMention hout1
      rcases server_conn_pass_cases h hf allow ann j (obs j) with
        ⟨m, hm, hevs, hfl⟩ | ⟨hg, hrj, hevs, hfl⟩ | ⟨hg, hrj, hclo, hevs, hfl⟩ |
        ⟨hg, hrj, hclo, hevs, hfl⟩ | ⟨hg, hclo, hevs, hfl⟩ | ⟨hg, hclo, hevs, hfl⟩
      -- B1: Error only.
      · left
        simp only [server_pass]
        intro e he
        rcases List.mem_append.mp he with hm2 | hm2
        · rw [hevs] at hm2
          simp only [List.mem_singleton] at hm2
          subst hm2
          rfl
        · exact hnclRR e hm2
      -- B2: silent rejection.
      · left
        simp only [server_pass]
        intro e he
        rcases List.mem_append.mp he with hm2 | hm2
        · rw [hevs] at hm2
          simp at hm2
        · exact hnclRR e hm2
      -- B3: announce then close: Closed is last for this id.
      · have hCl : (server_conn_pass h hf allow ann j (obs j)).2.2.2 = true := by rw [hfl]
        right
        constructor
        · intro ys hys
          simp only [server_pass]
          rw [hevs]
          rw [List.append_assoc, List.cons_append]
          rw [closedTerminal_cons_notClosed (by simp [isClosedFor])]
          rw [List.append_assoc]
          rw [closedTerminal_append_of_noClosed _ (by
            simp [serverMsgs, isClosedFor, List.forall_mem_map])]
          rw [List.singleton_append]
          apply closedTerminal_closed_head (by simp [isClosedFor])
          rw [noMention_append, hout1]
          simpa using hys
        · simp only [server_pass]
          apply containsHex_filter_cons_removed hrne
          rw [hCl]
          simp
      -- B4: announce, stays: no Closed for this id.
      · left
        simp only [server_pass]
        intro e he
        rcases List.mem_append.mp he with hm2 | hm2
        · rw [hevs] at hm2
          rcases List.mem_cons.mp hm2 with rfl | hm3
          · rfl
          · simp only [serverMsgs, List.mem_map] at hm3
            obtain ⟨d, _, rfl⟩ := hm3
            rfl
        · exact hnclRR e hm2
      -- B5: close without announce: Closed is last for this id.
      · have hCl : (server_conn_pass h hf allow ann j (obs j)).2.2.2 = true := by rw [hfl]
        right
        constructor
        · intro ys hys
          simp only [server_pass]
          rw [hevs]
          rw [List.append_assoc, List.append_assoc]
          rw [closedTerminal_append_of_noClosed _ (by
            simp [serverMsgs, isClosedFor, List.forall_mem_map])]
          rw [List.singleton_append]
          apply closedTerminal_closed_head (by simp [isClosedFor])
          rw [noMention_append, hout1]
          simpa using hys
        · simp only [server_pass]
          apply containsHex_filter_cons_removed hrne
          rw [hCl]
          simp
      -- B6: silent tail: no Closed for this id.
      · left
        simp only [server_pass]
        intro e he
        rcases List.mem_append.mp he with hm2 | hm2
        · rw [hevs] at hm2
          simp only [serverMsgs, List.mem_map] at hm2
          obtain ⟨d, _, rfl⟩ := hm2
          rfl
        · exact hnclRR e hm2

/-- Exhaustive description of one server iteration: fatal receive error
(break), abandoned iteration (header parse or accept failure), or the
normal path: an optional accept extends the map, then the pass runs over
it and the accumulated removals are applied. -/
theorem server_iter_cases (h : Nat) (hf : List Nat → List Nat) (allow : List RStr)
    (st : ServerState) (it : ServerIter) :
    (∃ m, it.recv = ServerRecv.fatal m ∧
      (run_server_worker_iter h hf allow st it).2.1 = [] ∧
      (run_server_worker_iter h hf allow st it).2.2.2 = .brk) ∨
    ((run_server_worker_iter h hf allow st it).1 = st ∧
      (run_server_worker_iter h hf allow st it).2.1 = [] ∧
      (run_server_worker_iter h hf allow st it).2.2.2 = .next) ∨
    (∃ conns1 : List (List Nat),
      (conns1 = st.conns ∨
        ∃ d f aok, it.recv = ServerRecv.pkt d f aok ∧ conns1 = insertKey f st.conns) ∧
      (run_server_worker_iter h hf allow st it).2.1 =
        (server_pass h hf allow it.obs st.announced conns1).1 ∧
      (run_server_worker_iter h hf allow st it).1.conns =
        conns1.filter (fun a =>
          !((server_pass h hf allow it.obs st.announced conns1).2.2.2.contains a)) ∧
      (run_server_worker_iter h hf allow st it).1.announced =
        (server_pass h hf allow it.obs st.announced conns1).2.2.1.filter (fun a =>
          !((server_pass h hf allow it.obs st.announced conns1).2.2.2.contains a)) ∧
      (run_server_worker_iter h hf allow st it).2.2.2 = .next) := by
  cases hrecv : it.recv with
  | fatal m =>
    refine Or.inl ⟨m, rfl, ?_, ?_⟩ <;>
      simp [run_server_worker_iter, server_recv_step, hrecv]
  | wouldBlock =>
    refine Or.inr (Or.inr ⟨st.conns, Or.inl rfl, ?_, ?_, ?_, ?_⟩) <;>
      simp [run_server_worker_iter, server_recv_step, hrecv]
  | badHeader =>
    refine Or.inr (Or.inl ⟨?_, ?_, ?_⟩) <;>
      simp [run_server_worker_iter, server_recv_step, hrecv]
  | pkt d f aok =>
    by_cases hd : d ∈ st.conns
    · refine Or.inr (Or.inr ⟨st.conns, Or.inl rfl, ?_, ?_, ?_, ?_⟩) <;>
        simp [run_server_worker_iter, server_recv_step, hrecv, hd]
    · cases aok
      · refine Or.inr (Or.inl ⟨?_, ?_, ?_⟩) <;>
          simp [run_server_worker_iter, server_recv_step, hrecv, hd]
      · by_cases hd2 : d ∈ insertKey f st.conns
        · refine Or.inr (Or.inr ⟨insertKey f st.conns,
            Or.inr ⟨d, f, true, rfl, rfl⟩, ?_, ?_, ?_, ?_⟩) <;>
            simp [run_server_worker_iter, server_recv_step, hrecv, hd, hd2]
        · refine Or.inr (Or.inr ⟨insertKey f st.conns,
            Or.inr ⟨d, f, true, rfl, rfl⟩, ?_, ?_, ?_, ?_⟩) <;>
            simp [run_server_worker_iter, server_recv_step, hrecv, hd, hd2]

/-- If neither the current map nor any future fresh id carries the hex id
`cid`, the rest of the server run never mentions `cid`. -/
theorem server_run_noMention (h : Nat) (hf : List Nat → List Nat)
    (allow : List RStr) (cid : RStr) :
    ∀ (trace : List ServerIter) (st : ServerState),
    containsHex cid st.conns = false →
    ((serverGens trace).all (fun g => !(hex_string g == cid))) = true →
    noMentionFor cid (run_server_worker h hf allow st trace) = true := by
  intro trace
  induction trace with
  | nil => intro st _ _; rfl
  | cons it rest ih =>
    intro st hc hg
    have hgsplit : ((match it.recv with
        | ServerRecv.pkt _ fresh _ => [fresh]
        | _ => []).all (fun g => !(hex_string g == cid))) = true ∧
        ((serverGens rest).all (fun g => !(hex_string g == cid))) = true := by
      rw [← Bool.and_eq_true, ← List.all_append]
      exact hg
    rcases hit : run_server_worker_iter h hf allow st it with ⟨st', evs, calls, oc⟩
    have hcases := server_iter_cases h hf allow st it
    rw [hit] at hcases
    rcases hcases with ⟨m, hm, hevs, hoc⟩ | ⟨hst, hevs, hoc⟩ |
      ⟨conns1, hc1, hevs, hconns, hann, hoc⟩
    · replace hevs : evs = [] := hevs
      replace hoc : oc = _ := hoc
      subst hevs; subst hoc
      simp only [run_server_worker, hit]
      rfl
    · replace hst : st' = st := hst
      replace hevs : evs = [] := hevs
      replace hoc : oc = _ := hoc
      subst hst; subst hevs; subst hoc
      simp only [run_server_worker, hit]
      exact ih _ hc hgsplit.2
    · replace hevs : evs = _ := hevs
      replace hconns : st'.conns = _ := hconns
      replace hoc : oc = _ := hoc
      subst hevs; subst hoc
      simp only [run_server_worker, hit]
      have hc1f : containsHex cid conns1 = false := by
        rcases hc1 with rfl | ⟨d, f, aok, hrecv, rfl⟩
        · exact hc
        · apply containsHex_insertKey ?_ hc
          have := hgsplit.1
          rw [hrecv] at this
          simpa using this
      have hne : ∀ j ∈ conns1, hex_string j ≠ cid := containsHex_false_iff.mp hc1f
      rw [noMention_append]
      rw [(server_pass_out h hf allow it.obs cid conns1 st.announced hne).1]
      have hc' : containsHex cid st'.conns = false := by
        rw [hconns]
        exact containsHex_mono (fun a ha => (List.mem_filter.mp ha).1) hc1f
      simpa using ih st' hc' hgsplit.2

theorem containsHex_true_iff {cid : RStr} {l : List (List Nat)} :
    containsHex cid l = true ↔ ∃ j ∈ l, hex_string j = cid := by
  simp [containsHex, List.any_eq_true]

theorem server_run_connOrdered (h : Nat) (hf : List Nat → List Nat)
    (allow : List RStr) (cid : RStr) :
    ∀ (trace : List ServerIter) (st : ServerState),
    (∀ it ∈ trace, ∀ jj, (it.obs jj).reads ≠ [] → (it.obs jj).established = true) →
    ((serverGens trace).map hex_string).Nodup →
    (∀ g ∈ serverGens trace, containsHex (hex_string g) st.conns = false) →
    ((st.conns.map hex_string).Nodup) →
    (∀ a ∈ st.announced, a ∈ st.conns) →
    connOrderedFrom cid (containsHex cid st.announced)
      (run_server_worker h hf allow st trace) = true := by
  intro trace
  induction trace with
  | nil => intro st _ _ _ _ _; exact connOrderedFrom_nil
  | cons it rest ih =>
    intro st He Hgnd Hdisj Hnd Hann
    have He' := fun it' h' => He it' (List.mem_cons_of_mem _ h')
    have Hehd := He it (List.mem_cons_self _ _)
    have hgens : serverGens (it :: rest) = (match it.recv with
        | ServerRecv.pkt _ fresh _ => [fresh]
        | _ => []) ++ serverGens rest := rfl
    have Hgnd' : ((serverGens rest).map hex_string).Nodup := by
      rw [hgens, List.map_append] at Hgnd
      exact Hgnd.of_append_right
    have Hdisj' : ∀ g ∈ serverGens rest, containsHex (hex_string g) st.conns = false := by
      intro g hgm
      exact Hdisj g (by rw [hgens]; exact List.mem_append_right _ hgm)
    rcases hit : run_server_worker_iter h hf allow st it with ⟨st', evs, calls, oc⟩
    have hcases := server_iter_cases h hf allow st it
    rw [hit] at hcases
    rcases hcases with ⟨m, hm, hevs, hoc⟩ | ⟨hst, hevs, hoc⟩ |
      ⟨conns1, hc1, hevs, hconns, hann2, hoc⟩
    · replace hevs : evs = [] := hevs
      replace hoc : oc = _ := hoc
      subst hevs; subst hoc
      simp only [run_server_worker, hit]
      exact connOrderedFrom_nil
    · replace hst : st' = st := hst
      replace hevs : evs = [] := hevs
      replace hoc : oc = _ := hoc
      subst hst; subst hevs; subst hoc
      simp only [run_server_worker, hit]
      rw [List.nil_append]
      exact ih _ He' Hgnd' Hdisj' Hnd Hann
    · replace hevs : evs = _ := hevs
      replace hconns : st'.conns = _ := hconns
      replace hann2 : st'.announced = _ := hann2
      replace hoc : oc = _ := hoc
      subst hevs; subst hoc
      simp only [run_server_worker, hit]
      have hsub1 : ∀ a ∈ st.conns, a ∈ conns1 := by
        rcases hc1 with rfl | ⟨d, f, aok, hrecv, rfl⟩
        · exact fun a ha => ha
        · exact fun a ha => mem_insertKey.mpr (Or.inl ha)
      have hnd1 : (conns1.map hex_string).Nodup := by
        rcases hc1 with rfl | ⟨d, f, aok, hrecv, rfl⟩
        · exact Hnd
        · refine nodup_hex_insertKey Hnd (Hdisj f ?_)
          have hgens2 : serverGens (it :: rest) = f :: serverGens rest := by
            simp [hgens, hrecv]
          rw [hgens2]
          exact List.mem_cons_self _ _
      have hgensfresh : ∀ g ∈ serverGens rest, containsHex (hex_string g) conns1 = false := by
        intro g hgm
        rcases hc1 with rfl | ⟨d, f, aok, hrecv, rfl⟩
        · exact Hdisj' g hgm
        · refine containsHex_insertKey ?_ (Hdisj' g hgm)
          have hgens2 : serverGens (it :: rest) = f :: serverGens rest := by
            simp [hgens, hrecv]
          have hx : (hex_string f :: (serverGens rest).map hex_string).Nodup := by
            have hy := Hgnd
            rw [hgens2] at hy
            simpa using hy
          exact fun hh => (List.nodup_cons.mp hx).1 (hh ▸ List.mem_map_of_mem _ hgm)
      have HeL : ∀ j ∈ conns1, (it.obs j).reads ≠ [] → (it.obs j).established = true :=
        fun j _ => Hehd j
      obtain ⟨pA, pB, pC⟩ := server_pass_connOrdered h hf allow it.obs cid conns1
        st.announced hnd1 HeL
      rw [connOrderedFrom_append, pA, Bool.true_and]
      have hconns_sub : ∀ a ∈ st'.conns, a ∈ conns1 := by
        rw [hconns]
        exact fun a ha => (List.mem_filter.mp ha).1
      have Hnd'' : (st'.conns.map hex_string).Nodup := by
        rw [hconns]
        exact nodup_hex_filter hnd1
      have Hdisj'' : ∀ g ∈ serverGens rest, containsHex (hex_string g) st'.conns = false :=
        fun g hgm => containsHex_mono hconns_sub (hgensfresh g hgm)
      have Hann'' : ∀ a ∈ st'.announced, a ∈ st'.conns := by
        intro a ha
        rw [hann2, List.mem_filter] at ha
        obtain ⟨ha1, ha2⟩ := ha
        have hmem : a ∈ conns1 := by
          rcases server_pass_annsub h hf allow it.obs conns1 st.announced a ha1 with hm | hm
          · exact hsub1 a (Hann a hm)
          · exact hm
        rw [hconns, List.mem_filter]
        exact ⟨hmem, ha2⟩
      have ihr := ih st' He' Hgnd' Hdisj'' Hnd'' Hann''
      cases hlock : lockAfter cid (containsHex cid st.announced)
        (server_pass h hf allow it.obs st.announced conns1).1
      · have hb' : containsHex cid st'.announced = false := by
          rw [hann2]
          exact containsHex_mono (fun a ha => (List.mem_filter.mp ha).1) (pB hlock)
        rw [hb'] at ihr
        exact ihr
      · rcases pC hlock with hL | hR
        · have hb' : containsHex cid st'.announced = true := by rw [hann2]; exact hL
          rw [hb'] at ihr
          exact ihr
        · have hcf : containsHex cid st'.conns = false := by rw [hconns]; exact hR
          have hnotfuture : ((serverGens rest).all
              (fun g => !(hex_string g == cid))) = true := by
            rw [List.all_eq_true]
            intro g hgm
            rw [Bool.not_eq_true', beq_eq_false_iff_ne]
            by_cases hcx : containsHex cid conns1 = true
            · obtain ⟨j, hj, hjh⟩ := containsHex_true_iff.mp hcx
              intro hgc
              have hz := containsHex_false_iff.mp (hgensfresh g hgm)
              exact hz j hj (by rw [hjh, hgc])
            · have hcx' : containsHex cid conns1 = false := by simpa using hcx
              have hosil := (server_pass_out h hf allow it.obs cid conns1 st.announced
                (containsHex_false_iff.mp hcx')).1
              have hlv : lockAfter cid (containsHex cid st.announced)
                  (server_pass h hf allow it.obs st.announced conns1).1 =
                  containsHex cid st.announced :=
                lockAfter_of_noRel _ (noRel_of_noMention hosil)
              rw [hlv] at hlock
              obtain ⟨a, ham, hah⟩ := containsHex_true_iff.mp hlock
              intro hgc
              have hz := containsHex_false_iff.mp (Hdisj' g hgm)
              exact hz a (Hann a ham) (by rw [hah, hgc])
          have hnm := server_run_noMention h hf allow cid rest st' hcf hnotfuture
          exact connOrderedFrom_of_noConn (noConn_of_noMention hnm)

theorem server_run_closedTerminal (h : Nat) (hf : List Nat → List Nat)
    (allow : List RStr) (cid : RStr) :
    ∀ (trace : List ServerIter) (st : ServerState),
    ((serverGens trace).map hex_string).Nodup →
    (∀ g ∈ serverGens trace, containsHex (hex_string g) st.conns = false) →
    ((st.conns.map hex_string).Nodup) →
    closedTerminal cid (run_server_worker h hf allow st trace) = true := by
  intro trace
  induction trace with
  | nil => intro st _ _ _; rfl
  | cons it rest ih =>
    intro st Hgnd Hdisj Hnd
    have hgens : serverGens (it :: rest) = (match it.recv with
        | ServerRecv.pkt _ fresh _ => [fresh]
        | _ => []) ++ serverGens rest := rfl
    have Hgnd' : ((serverGens rest).map hex_string).Nodup := by
      rw [hgens, List.map_append] at Hgnd
      exact Hgnd.of_append_right
    have Hdisj' : ∀ g ∈ serverGens rest, containsHex (hex_string g) st.conns = false := by
      intro g hgm
      exact Hdisj g (by rw [hgens]; exact List.mem_append_right _ hgm)
    rcases hit : run_server_worker_iter h hf allow st it with ⟨st', evs, calls, oc⟩
    have hcases := server_iter_cases h hf allow st it
    rw [hit] at hcases
    rcases hcases with ⟨m, hm, hevs, hoc⟩ | ⟨hst, hevs, hoc⟩ |
      ⟨conns1, hc1, hevs, hconns, hann2, hoc⟩
    · replace hevs : evs = [] := hevs
      replace hoc : oc = _ := hoc
      subst hevs; subst hoc
      simp only [run_server_worker, hit]
      rfl
    · replace hst : st' = st := hst
      replace hevs : evs = [] := hevs
      replace hoc : oc = _ := hoc
      subst hst; subst hevs; subst hoc
      simp only [run_server_worker, hit]
      rw [List.nil_append]
      exact ih _ Hgnd' Hdisj' Hnd
    · replace hevs : evs = _ := hevs
      replace hconns : st'.conns = _ := hconns
      replace hoc : oc = _ := hoc
      subst hevs; subst hoc
      simp only [run_server_worker, hit]
      have hnd1 : (conns1.map hex_string).Nodup := by
        rcases hc1 with rfl | ⟨d, f, aok, hrecv, rfl⟩
        · exact Hnd
        · refine nodup_hex_insertKey Hnd (Hdisj f ?_)
          have hgens2 : serverGens (it :: rest) = f :: serverGens rest := by
            simp [hgens, hrecv]
          rw [hgens2]
          exact List.mem_cons_self _ _
      have hgensfresh : ∀ g ∈ serverGens rest, containsHex (hex_string g) conns1 = false := by
        intro g hgm
        rcases hc1 with rfl | ⟨d, f, aok, hrecv, rfl⟩
        · exact Hdisj' g hgm
        · refine containsHex_insertKey ?_ (Hdisj' g hgm)
          have hgens2 : serverGens (it :: rest) = f :: serverGens rest := by
            simp [hgens, hrecv]
          have hx : (hex_string f :: (serverGens rest).map hex_string).Nodup := by
            have hy := Hgnd
            rw [hgens2] at hy
            simpa using hy
          exact fun hh => (List.nodup_cons.mp hx).1 (hh ▸ List.mem_map_of_mem _ hgm)
      have hconns_sub : ∀ a ∈ st'.conns, a ∈ conns1 := by
        rw [hconns]
        exact fun a ha => (List.mem_filter.mp ha).1
      have Hnd'' : (st'.conns.map hex_string).Nodup := by
        rw [hconns]
        exact nodup_hex_filter hnd1
      have Hdisj'' : ∀ g ∈ serverGens rest, containsHex (hex_string g) st'.conns = false :=
        fun g hgm => containsHex_mono hconns_sub (hgensfresh g hgm)
      by_cases hcx : containsHex cid conns1 = true
      · rcases server_pass_closedTerminal h hf allow it.obs cid conns1 st.announced hnd1 with
          hNC | ⟨ihY, ihC⟩
        · rw [closedTerminal_append_of_noClosed _ hNC]
          exact ih st' Hgnd' Hdisj'' Hnd''
        · have hcf : containsHex cid st'.conns = false := by rw [hconns]; exact ihC
          obtain ⟨j, hj, hjh⟩ := containsHex_true_iff.mp hcx
          have hnotfuture : ((serverGens rest).all
              (fun g => !(hex_string g == cid))) = true := by
            rw [List.all_eq_true]
            intro g hgm
            rw [Bool.not_eq_true', beq_eq_false_iff_ne]
            intro hgc
            have hz := containsHex_false_iff.mp (hgensfresh g hgm)
            exact hz j hj (by rw [hjh, hgc])
          have hnm := server_run_noMention h hf allow cid rest st' hcf hnotfuture
          exact ihY _ hnm
      · have hcx' : containsHex cid conns1 = false := by simpa using hcx
        have hosil := (server_pass_out h hf allow it.obs cid conns1 st.announced
          (containsHex_false_iff.mp hcx')).1
        rw [closedTerminal_append_of_noClosed _ (noClosed_of_noMention hosil)]
        exact ih st' Hgnd' Hdisj'' Hnd''

theorem client_drain_append (scid : List Nat) (e : Bool) :
    ∀ (xs ys : List WorkerCommand),
    client_drain_cmds scid e (xs ++ ys) =
      client_drain_cmds scid e xs ++ client_drain_cmds scid e ys := by
  intro xs
  induction xs with
  | nil => intro ys; simp [client_drain_cmds]
  | cons c t ih =>
    intro ys
    cases c <;> simp [client_drain_cmds, ih]

theorem server_drain_append (conns : List (List Nat)) (e : List Nat → Bool) :
    ∀ (xs ys : List WorkerCommand),
    server_drain_cmds conns e (xs ++ ys) =
      server_drain_cmds conns e xs ++ server_drain_cmds conns e ys := by
  intro xs
  induction xs with
  | nil => intro ys; simp [server_drain_cmds]
  | cons c t ih =>
    intro ys
    cases c <;> simp [server_drain_cmds, ih]

theorem client_iter_cmds_congr (h : Nat) (hf : List Nat → List Nat) (efp : RStr)
    (scid : List Nat) (ann : Bool) (it : ClientIter)
    (cmds1 cmds2 : List WorkerCommand)
    (hd : client_drain_cmds scid it.establishedAtDrain cmds1 =
      client_drain_cmds scid it.establishedAtDrain cmds2) :
    run_client_worker_iter h hf efp scid ann { it with cmds := cmds1 } =
      run_client_worker_iter h hf efp scid ann { it with cmds := cmds2 } := by
  obtain ⟨cs, ed, sr, rr, est, pc, rds, cl, pe, td⟩ := it
  simp only at hd
  cases sr <;> cases rr <;>
    simp [run_client_worker_iter, run_client_worker_tail, clientPeerFp, hd]

theorem server_iter_cmds_congr (h : Nat) (hf : List Nat → List Nat)
    (allow : List RStr) (st : ServerState) (it : ServerIter)
    (cmds1 cmds2 : List WorkerCommand)
    (hd : server_drain_cmds st.conns it.drainEstablished cmds1 =
      server_drain_cmds st.conns it.drainEstablished cmds2) :
    run_server_worker_iter h hf allow st { it with cmds := cmds1 } =
      run_server_worker_iter h hf allow st { it with cmds := cmds2 } := by
  obtain ⟨cs, de, rv, ob⟩ := it
  simp only at hd
  simp [run_server_worker_iter, hd]

/-! ## The claims -/

/-- C1: for every session — client or server — and every connection id, a
`Connected` event is emitted at most once for that id and, when emitted, it
precedes every `Message` and `Closed` event for that id. The engine contract
that readable streams occur only on an established connection, and freshness
of the server's randomly generated connection ids, are assumed. -/
theorem claim_C1_connected_once_and_first (h : Nat) (hf : List Nat → List Nat)
    (efp : RStr) (scid : List Nat) (allow : List RStr) (cid : RStr)
    (ctrace : List ClientIter) (strace : List ServerIter)
    (Hc : ∀ it ∈ ctrace, it.reads ≠ [] → it.established = true)
    (Hs : ∀ it ∈ strace, ∀ j, (it.obs j).reads ≠ [] → (it.obs j).established = true)
    (Hfresh : ((serverGens strace).map hex_string).Nodup) :
    connOrdered cid (run_client_worker h hf efp scid false ctrace) = true ∧
    connOrdered cid (run_server_worker h hf allow initialServerState strace) = true := by
  refine ⟨client_run_connOrdered h hf efp scid cid ctrace Hc, ?_⟩
  have hs := server_run_connOrdered h hf allow cid strace initialServerState Hs Hfresh
    (fun g _ => rfl) (by simp [initialServerState])
    (by intro a ha; simp [initialServerState] at ha)
  exact hs

/-- Witness for C1 at a concrete established client iteration and the empty
server trace. -/
theorem claim_C1_witness :
    connOrdered (hex_string [2]) (run_client_worker 1 (fun _ => [1]) [] [2] false
      [⟨[], false, SendRes.done, RecvRes.wouldBlock, true, some [3], [[7]], false,
        none, false⟩]) = true ∧
    connOrdered (hex_string [2]) (run_server_worker 1 (fun _ => [1]) []
      initialServerState []) = true :=
  claim_C1_connected_once_and_first 1 (fun _ => [1]) [] [2] [] (hex_string [2])
    [⟨[], false, SendRes.done, RecvRes.wouldBlock, true, some [3], [[7]], false,
      none, false⟩] []
    (by intro it hit; rw [List.mem_singleton] at hit; subst hit; intro _; rfl)
    (by intro it hit; exact absurd hit (List.not_mem_nil it))
    (by simp [serverGens])

/-- C4: for every session — client or server — and every connection id, once
a `Closed` event has been emitted for that id, no further event carrying
that id follows in the session's event stream. Freshness of the server's
randomly generated connection ids is assumed. -/
theorem claim_C4_closed_terminal (h : Nat) (hf : List Nat → List Nat)
    (efp : RStr) (scid : List Nat) (allow : List RStr) (cid : RStr) (ann : Bool)
    (ctrace : List ClientIter) (strace : List ServerIter)
    (Hfresh : ((serverGens strace).map hex_string).Nodup) :
    closedTerminal cid (run_client_worker h hf efp scid ann ctrace) = true ∧
    closedTerminal cid (run_server_worker h hf allow initialServerState strace) = true := by
  refine ⟨client_run_closedTerminal h hf efp scid cid ctrace ann, ?_⟩
  exact server_run_closedTerminal h hf allow cid strace initialServerState Hfresh
    (fun g _ => rfl) (by simp [initialServerState])

/-- Witness for C4 at a client trace whose iteration closes the connection
and the empty server trace. -/
theorem claim_C4_witness :
    closedTerminal (hex_string [2]) (run_client_worker 1 (fun _ => [1]) [] [2] false
      [⟨[], false, SendRes.done, RecvRes.wouldBlock, true, some [3], [], true,
        none, false⟩]) = true ∧
    closedTerminal (hex_string [2]) (run_server_worker 1 (fun _ => [1]) []
      initialServerState []) = true :=
  claim_C4_closed_terminal 1 (fun _ => [1]) [] [2] [] (hex_string [2]) false
    [⟨[], false, SendRes.done, RecvRes.wouldBlock, true, some [3], [], true,
      none, false⟩] []
    (by simp [serverGens])

/-- C2 (amended): a client iteration with a non-empty expected fingerprint
that finds its connection established but the lowercased peer fingerprint
different from the expectation emits exactly the mismatch `Error` event,
issues a `conn.close` with code 0x102, and then breaks out of the loop — so
no `Connected` and, contrary to the frozen claim, no `Closed` event is ever
emitted for the connection, and the loop does not continue. -/
theorem claim_C2_mismatch_amended (h : Nat) (hf : List Nat → List Nat)
    (efp : RStr) (scid : List Nat) (ann : Bool) (it : ClientIter)
    (rest : List ClientIter)
    (hsr : it.sendRes = SendRes.done ∨ it.sendRes = SendRes.produced)
    (hrr : it.recvRes = RecvRes.pkt ∨ it.recvRes = RecvRes.wouldBlock)
    (hest : (it.established && !ann) = true)
    (hne : efp.isEmpty = false)
    (hmis : (rstrLower (clientPeerFp hf it) == efp) = false) :
    run_client_worker h hf efp scid ann (it :: rest) =
      [QuicEvent.error h (some (hex_string scid)) "server fingerprint mismatch"] ∧
    (∃ pre, (run_client_worker_iter h hf efp scid ann it).2.2.1 =
      pre ++ [EngineCall.connClose scid 0x102 "fingerprint mismatch"]) ∧
    (run_client_worker_iter h hf efp scid ann it).2.2.2 = LoopOutcome.brk := by
  have hiter : run_client_worker_iter h hf efp scid ann it =
      (true,
        [QuicEvent.error h (some (hex_string scid)) "server fingerprint mismatch"],
        (client_drain_cmds scid it.establishedAtDrain it.cmds ++
          (match it.sendRes with
           | SendRes.produced => [EngineCall.sockSend scid]
           | _ => []) ++
          (match it.recvRes with
           | RecvRes.pkt => [EngineCall.connRecv scid]
           | _ => [])) ++
        [EngineCall.connClose scid 0x102 "fingerprint mismatch"],
        LoopOutcome.brk) := by
    rcases hsr with hs | hs <;> rcases hrr with hr | hr <;>
      simp [run_client_worker_iter, hs, hr, hest, hne, hmis]
  refine ⟨?_, ⟨_, by rw [hiter]⟩, by rw [hiter]⟩
  simp only [run_client_worker, hiter]

/-- C2, counterexample to the frozen wording: a mismatching client run emits
the `Error` event and then stops — even though the next oracle iteration
would have reported the connection closed, no `Closed` event is emitted. -/
theorem claim_C2_counterexample :
    run_client_worker 1 (fun _ => []) [98] [0] false
      [⟨[], false, SendRes.done, RecvRes.wouldBlock, true, some [], [], false,
        none, false⟩,
       ⟨[], false, SendRes.done, RecvRes.wouldBlock, true, some [], [], true,
        none, false⟩] =
      [QuicEvent.error 1 (some (hex_string [0])) "server fingerprint mismatch"] ∧
    (run_client_worker 1 (fun _ => []) [98] [0] false
      [⟨[], false, SendRes.done, RecvRes.wouldBlock, true, some [], [], false,
        none, false⟩,
       ⟨[], false, SendRes.done, RecvRes.wouldBlock, true, some [], [], true,
        none, false⟩]).all (fun e => !(isClosedFor (hex_string [0]) e)) = true :=
  ⟨rfl, rfl⟩

/-- Witness for the amended C2 at a concrete mismatching iteration. -/
theorem claim_C2_witness :
    run_client_worker 1 (fun _ => []) [98] [0] false
      [⟨[], false, SendRes.done, RecvRes.wouldBlock, true, some [], [], false,
        none, false⟩] =
      [QuicEvent.error 1 (some (hex_string [0])) "server fingerprint mismatch"] ∧
    (∃ pre, (run_client_worker_iter 1 (fun _ => []) [98] [0] false
      ⟨[], false, SendRes.done, RecvRes.wouldBlock, true, some [], [], false,
        none, false⟩).2.2.1 =
      pre ++ [EngineCall.connClose [0] 0x102 "fingerprint mismatch"]) ∧
    (run_client_worker_iter 1 (fun _ => []) [98] [0] false
      ⟨[], false, SendRes.done, RecvRes.wouldBlock, true, some [], [], false,
        none, false⟩).2.2.2 = LoopOutcome.brk :=
  claim_C2_mismatch_amended 1 (fun _ => []) [98] [0] false
    ⟨[], false, SendRes.done, RecvRes.wouldBlock, true, some [], [], false,
      none, false⟩ []
    (Or.inl rfl) (Or.inr rfl) rfl rfl rfl

/-- C3 (amended): an established, not yet announced server connection whose
peer fingerprint is missing from the non-empty allowlist is closed with code
0x103 and marked for removal, and no `Connected` event is emitted for it —
but, contrary to the frozen claim, no `Error` event is emitted either: its
slice of the pass produces no event at all. -/
theorem claim_C3_untrusted_amended (h : Nat) (hf : List Nat → List Nat)
    (allow : List RStr) (ann : List (List Nat)) (id : List Nat) (o : ConnObs)
    (hsr : o.sendRes = SendRes.done ∨ o.sendRes = SendRes.produced)
    (hest : o.established = true)
    (hna : ann.contains id = false)
    (hne : allow.isEmpty = false)
    (hfp : allow.contains (serverPeerFp hf o) = false) :
    server_conn_pass h hf allow ann id o =
      ([], (match o.sendRes with
            | SendRes.produced => [EngineCall.sockSend id]
            | _ => []) ++ [EngineCall.connClose id 0x103 "untrusted client"],
        false, true) := by
  have hna2 : id ∉ ann := by simpa using hna
  have hfp2 : serverPeerFp hf o ∉ allow := by simpa using hfp
  rcases hsr with hs | hs <;>
    simp [server_conn_pass, hs, hest, hna2, hne, hfp2]

/-- C3, counterexample to the frozen wording: a server iteration over one
established connection whose fingerprint is off the allowlist emits no event
whatsoever — in particular no `Error` — while closing with 0x103 and
dropping the connection from the map. -/
theorem claim_C3_counterexample :
    run_server_worker 1 (fun _ => []) [[97, 97]] ⟨[[5]], [], [[5]]⟩
      [⟨[], fun _ => false, ServerRecv.wouldBlock,
        fun _ => ⟨SendRes.done, true, some [], [], false, none, false⟩⟩] = [] ∧
    (run_server_worker_iter 1 (fun _ => []) [[97, 97]] ⟨[[5]], [], [[5]]⟩
      ⟨[], fun _ => false, ServerRecv.wouldBlock,
        fun _ => ⟨SendRes.done, true, some [], [], false, none, false⟩⟩).2.2.1 =
      [EngineCall.connClose [5] 0x103 "untrusted client"] ∧
    (run_server_worker_iter 1 (fun _ => []) [[97, 97]] ⟨[[5]], [], [[5]]⟩
      ⟨[], fun _ => false, ServerRecv.wouldBlock,
        fun _ => ⟨SendRes.done, true, some [], [], false, none, false⟩⟩).1.conns = [] :=
  ⟨rfl, rfl, rfl⟩

/-- Witness for the amended C3 at a concrete untrusted connection. -/
theorem claim_C3_witness :
    server_conn_pass 1 (fun _ => []) [[97, 97]] [] [5]
      ⟨SendRes.done, true, some [], [], false, none, false⟩ =
      ([], [EngineCall.connClose [5] 0x103 "untrusted client"], false, true) :=
  claim_C3_untrusted_amended 1 (fun _ => []) [[97, 97]] [] [5]
    ⟨SendRes.done, true, some [], [], false, none, false⟩
    (Or.inl rfl) rfl rfl rfl rfl

/-- C5: a datagram for an unknown destination id leads, when the accept
succeeds, to an insertion keyed only by the freshly generated random id;
the follow-up lookup still uses the datagram's original destination id and
fails, so no engine `recv` is called and the triggering datagram is never
fed to the newly accepted connection in that iteration. -/
theorem claim_C5_fresh_key_accept (st : ServerState) (dcid fresh : List Nat)
    (aok : Bool) (hunk : st.conns.contains dcid = false) (hne : fresh ≠ dcid) :
    server_recv_step st (ServerRecv.pkt dcid fresh aok) =
      ((if aok then
          { st with conns := insertKey fresh st.conns,
                    startTimes := insertKey fresh st.startTimes }
        else st), [], none, !aok, false) := by
  have hunk2 : dcid ∉ st.conns := by simpa using hunk
  cases aok with
  | false => simp [server_recv_step, hunk2]
  | true =>
    have h2 : (insertKey fresh st.conns).contains dcid = false := by
      rw [contains_insertKey_ne (fun hh => hne hh.symm)]
      exact hunk
    have h22 : dcid ∉ insertKey fresh st.conns := by simpa using h2
    simp [server_recv_step, hunk2, h22]

/-- Witness for C5: a concrete accept keyed under the fresh id `[3]` while
the datagram's destination id `[2]` stays unknown and is not fed. -/
theorem claim_C5_witness :
    server_recv_step ⟨[[1]], [], [[1]]⟩ (ServerRecv.pkt [2] [3] true) =
      (⟨[[1], [3]], [], [[1], [3]]⟩, [], none, false, false) :=
  claim_C5_fresh_key_accept ⟨[[1]], [], [[1]]⟩ [2] [3] true (by decide) (by decide)

/-- C6 (amended): dispatch and removal are total functions of the registry —
nothing panics — a `Send` to an unknown handle reports a non-Ok status, and
removing a handle is idempotent; but, contrary to the frozen claim, the
close entry point returns `Ok` whether or not the handle exists, so its
result does not distinguish a missing handle from success. -/
theorem claim_C6_registry_amended (m : List Nat) (handle : Nat) (cid : RStr)
    (payload : List Nat) (sendOk : Bool)
    (hnf : m.contains handle = false)
    (hp : payload.isEmpty = false) (hc : cid.isEmpty = false) :
    cc_quic_conn_send (some m) handle cid payload sendOk ≠ CcQuicStatus.ok.code ∧
    cc_quic_conn_close (some m) handle = CcQuicStatus.ok.code ∧
    removeHandle (removeHandle m handle) handle = removeHandle m handle := by
  refine ⟨?_, ?_, ?_⟩
  · have hnf2 : handle ∉ m := by simpa using hnf
    cases hd : hexDecode (rstrTrim cid) <;>
      simp [cc_quic_conn_send, hp, hc, hd, hnf2, CcQuicStatus.code]
  · simp [cc_quic_conn_close]
  · simp [removeHandle, List.filter_filter]

/-- C6, counterexample to the frozen wording: closing an absent handle
returns the very same `Ok` status as closing a present one. -/
theorem claim_C6_counterexample :
    cc_quic_conn_close (some [1]) 7 = CcQuicStatus.ok.code ∧
    cc_quic_conn_close (some [1]) 1 = CcQuicStatus.ok.code :=
  ⟨rfl, rfl⟩

/-- Witness for the amended C6 at a concrete registry with handle 7 absent. -/
theorem claim_C6_witness :
    cc_quic_conn_send (some [1]) 7 [97] [5] true ≠ CcQuicStatus.ok.code ∧
    cc_quic_conn_close (some [1]) 7 = CcQuicStatus.ok.code ∧
    removeHandle (removeHandle [1] 7) 7 = removeHandle [1] 7 :=
  claim_C6_registry_amended [1] 7 [97] [5] true (by decide) rfl rfl

/-- C7 (amended): session creation returns `Ok` and spawns a worker, with a
handle and registry entry, exactly when the checked setup steps succeed —
null arguments, UTF-8 conversion, certificate and key loading, address
parse, bind; every such failure is returned synchronously with nothing
spawned or allocated. Contrary to the frozen claim, the outcomes of
`socket.connect` and `set_nonblocking` are ignored: they do not affect the
result at all. -/
theorem claim_C7_setup_amended (env : ClientConnectEnv) (senv : ServerStartEnv) :
    (((cc_quic_client_connect env).status = CcQuicStatus.ok.code) ↔
      (env.argsNonNull && env.stringsUtf8Ok && env.certLoadOk && env.keyLoadOk &&
        env.addrParseOk && env.bindOk) = true) ∧
    ((cc_quic_client_connect env).threadSpawned =
      (env.argsNonNull && env.stringsUtf8Ok && env.certLoadOk && env.keyLoadOk &&
        env.addrParseOk && env.bindOk)) ∧
    ((cc_quic_client_connect env).handleAllocated =
      (cc_quic_client_connect env).threadSpawned) ∧
    ((cc_quic_client_connect env).registryInserted =
      (cc_quic_client_connect env).threadSpawned) ∧
    (∀ b1 b2 : Bool,
      cc_quic_client_connect { env with connectOk := b1, nonblockOk := b2 } =
        cc_quic_client_connect env) ∧
    (((cc_quic_server_start senv).status = CcQuicStatus.ok.code) ↔
      (senv.argsNonNull && senv.stringsUtf8Ok && senv.addrParseOk && senv.certLoadOk &&
        senv.keyLoadOk && senv.bindOk) = true) ∧
    ((cc_quic_server_start senv).threadSpawned =
      (senv.argsNonNull && senv.stringsUtf8Ok && senv.addrParseOk && senv.certLoadOk &&
        senv.keyLoadOk && senv.bindOk)) ∧
    ((cc_quic_server_start senv).handleAllocated =
      (cc_quic_server_start senv).threadSpawned) ∧
    ((cc_quic_server_start senv).registryInserted =
      (cc_quic_server_start senv).threadSpawned) ∧
    (∀ b : Bool, cc_quic_server_start { senv with nonblockOk := b } =
      cc_quic_server_start senv) := by
  obtain ⟨a, u, fp, c, k, ad, b, co, no⟩ := env
  obtain ⟨sa, su, csv, sad, sc, sk, sb, sno⟩ := senv
  refine ⟨?_, ?_, ?_, ?_, fun b1 b2 => rfl, ?_, ?_, ?_, ?_, fun b2 => rfl⟩
  · cases a <;> cases u <;> cases c <;> cases k <;> cases ad <;> cases b <;>
      simp [cc_quic_client_connect, CcQuicStatus.code]
  · cases a <;> cases u <;> cases c <;> cases k <;> cases ad <;> cases b <;>
      simp [cc_quic_client_connect]
  · cases a <;> cases u <;> cases c <;> cases k <;> cases ad <;> cases b <;>
      simp [cc_quic_client_connect]
  · cases a <;> cases u <;> cases c <;> cases k <;> cases ad <;> cases b <;>
      simp [cc_quic_client_connect]
  · cases sa <;> cases su <;> cases sad <;> cases sc <;> cases sk <;> cases sb <;>
      simp [cc_quic_server_start, CcQuicStatus.code]
  · cases sa <;> cases su <;> cases sad <;> cases sc <;> cases sk <;> cases sb <;>
      simp [cc_quic_server_start]
  · cases sa <;> cases su <;> cases sad <;> cases sc <;> cases sk <;> cases sb <;>
      simp [cc_quic_server_start]
  · cases sa <;> cases su <;> cases sad <;> cases sc <;> cases sk <;> cases sb <;>
      simp [cc_quic_server_start]

/-- C7, counterexample to the frozen wording: a failing `socket.connect` is
ignored — creation still returns `Ok` and spawns the worker thread. -/
theorem claim_C7_counterexample :
    (cc_quic_client_connect
      ⟨true, true, [97], true, true, true, true, false, true⟩).status =
      CcQuicStatus.ok.code ∧
    (cc_quic_client_connect
      ⟨true, true, [97], true, true, true, true, false, true⟩).threadSpawned = true :=
  ⟨rfl, rfl⟩

/-- C8: a `Send` command whose connection id is unknown to the loop — an id
other than the client's own in the client loop, an id outside the connection
map in the server loop — is a no-op: the iteration with that command equals,
in resulting state, events, engine calls and loop outcome, the same
iteration without it. -/
theorem claim_C8_send_unknown_noop (h : Nat) (hf : List Nat → List Nat)
    (efp : RStr) (scid : List Nat) (allow : List RStr) (ann : Bool)
    (st : ServerState) (cit : ClientIter) (sit : ServerIter)
    (cid p : List Nat) (cmds1 cmds2 : List WorkerCommand)
    (hcl : (cid == scid) = false)
    (hsv : st.conns.contains cid = false) :
    run_client_worker_iter h hf efp scid ann
        { cit with cmds := cmds1 ++ WorkerCommand.send cid p :: cmds2 } =
      run_client_worker_iter h hf efp scid ann { cit with cmds := cmds1 ++ cmds2 } ∧
    run_server_worker_iter h hf allow st
        { sit with cmds := cmds1 ++ WorkerCommand.send cid p :: cmds2 } =
      run_server_worker_iter h hf allow st { sit with cmds := cmds1 ++ cmds2 } := by
  constructor
  · apply client_iter_cmds_congr
    rw [show WorkerCommand.send cid p :: cmds2 =
        [WorkerCommand.send cid p] ++ cmds2 from rfl,
      client_drain_append, client_drain_append, client_drain_append]
    simp [client_drain_cmds, hcl]
  · apply server_iter_cmds_congr
    rw [show WorkerCommand.send cid p :: cmds2 =
        [WorkerCommand.send cid p] ++ cmds2 from rfl,
      server_drain_append, server_drain_append, server_drain_append]
    have hsv2 : cid ∉ st.conns := by simpa using hsv
    simp [server_drain_cmds, hsv2]

/-- Witness for C8: dropping a `Send` for the unknown id `[9]` leaves a
concrete client iteration and a concrete server iteration unchanged. -/
theorem claim_C8_witness :
    run_client_worker_iter 1 (fun _ => []) [] [0] false
        ⟨[WorkerCommand.send [9] [1]], true, SendRes.done, RecvRes.wouldBlock,
          false, none, [], false, none, false⟩ =
      run_client_worker_iter 1 (fun _ => []) [] [0] false
        ⟨[], true, SendRes.done, RecvRes.wouldBlock, false, none, [], false,
          none, false⟩ ∧
    run_server_worker_iter 1 (fun _ => []) [] ⟨[], [], []⟩
        ⟨[WorkerCommand.send [9] [1]], fun _ => false, ServerRecv.wouldBlock,
          fun _ => ⟨SendRes.done, false, none, [], false, none, false⟩⟩ =
      run_server_worker_iter 1 (fun _ => []) [] ⟨[], [], []⟩
        ⟨[], fun _ => false, ServerRecv.wouldBlock,
          fun _ => ⟨SendRes.done, false, none, [], false, none, false⟩⟩ :=
  claim_C8_send_unknown_noop 1 (fun _ => []) [] [0] [] false ⟨[], [], []⟩
    ⟨[], true, SendRes.done, RecvRes.wouldBlock, false, none, [], false,
      none, false⟩
    ⟨[], fun _ => false, ServerRecv.wouldBlock,
      fun _ => ⟨SendRes.done, false, none, [], false, none, false⟩⟩
    [9] [1] [] [] (by decide) (by decide)

/-- C9: pinning is disabled exactly by an empty expectation — a client with
an empty expected fingerprint and a server with an empty allowlist announce
any established connection whatever its fingerprint, and a CSV of only
commas and whitespace parses to the empty allowlist — and comparisons are
case-insensitive: the stored client expectation is lowercased at connect
time, parsed allowlist entries are lowercase, and the computed SHA-256 hex
fingerprint is lowercase. -/
theorem claim_C9_empty_pinning_lowercase (h : Nat) (hf : List Nat → List Nat)
    (scid : List Nat) (ann : Bool) (it : ClientIter)
    (sann : List (List Nat)) (id : List Nat) (o : ConnObs)
    (csv csv2 : RStr) (fpArg : RStr) (d : List Nat) (b1 b2 : Bool)
    (hsr : it.sendRes = SendRes.done ∨ it.sendRes = SendRes.produced)
    (hrr : it.recvRes = RecvRes.pkt ∨ it.recvRes = RecvRes.wouldBlock)
    (hest : (it.established && !ann) = true)
    (hosr : o.sendRes = SendRes.done ∨ o.sendRes = SendRes.produced)
    (hoest : o.established = true)
    (hna : sann.contains id = false)
    (hws : ∀ c ∈ csv, c = 44 ∨ isWsCode c = true) :
    ((run_client_worker_iter h hf [] scid ann it).2.1).head? =
      some (QuicEvent.connected h (hex_string scid) (clientPeerFp hf it)) ∧
    ((server_conn_pass h hf [] sann id o).1).head? =
      some (QuicEvent.connected h (hex_string id) (serverPeerFp hf o)) ∧
    parse_allowlist csv = [] ∧
    rstrLower (sha256_hex hf d) = sha256_hex hf d ∧
    (∀ s ∈ parse_allowlist csv2, rstrLower s = s) ∧
    (cc_quic_client_connect
      ⟨true, true, fpArg, true, true, true, true, b1, b2⟩).workerExpectedFp =
      some (rstrLower fpArg) := by
  refine ⟨?_, ?_, parse_allowlist_ws hws, rstrLower_hex_string (hf d),
    fun s hs => mem_parse_allowlist_lower hs, rfl⟩
  · rcases hsr with hs | hs <;> rcases hrr with hr | hr <;>
      cases hclo : it.closed <;>
      simp [run_client_worker_iter, run_client_worker_tail, hs, hr, hest, hclo]
  · have hna2 : id ∉ sann := by simpa using hna
    rcases hosr with hs | hs <;> cases hclo : o.closed <;>
      simp [server_conn_pass, server_conn_tail, hs, hoest, hna2, hclo]

/-- Witness for C9 at concrete established client and server connections, a
whitespace-and-comma CSV, and an uppercase CSV entry and expectation. -/
theorem claim_C9_witness :
    ((run_client_worker_iter 1 (fun _ => [171]) [] [0] false
        ⟨[], false, SendRes.done, RecvRes.wouldBlock, true, some [1], [], false,
          none, false⟩).2.1).head? =
      some (QuicEvent.connected 1 (hex_string [0])
        (clientPeerFp (fun _ => [171])
          ⟨[], false, SendRes.done, RecvRes.wouldBlock, true, some [1], [], false,
            none, false⟩)) ∧
    ((server_conn_pass 1 (fun _ => [171]) [] [] [5]
        ⟨SendRes.done, true, some [1], [], false, none, false⟩).1).head? =
      some (QuicEvent.connected 1 (hex_string [5])
        (serverPeerFp (fun _ => [171])
          ⟨SendRes.done, true, some [1], [], false, none, false⟩)) ∧
    parse_allowlist [44, 32, 44] = [] ∧
    rstrLower (sha256_hex (fun _ => [171]) [7]) = sha256_hex (fun _ => [171]) [7] ∧
    (∀ s ∈ parse_allowlist [65, 66], rstrLower s = s) ∧
    (cc_quic_client_connect
      ⟨true, true, [65], true, true, true, true, true, true⟩).workerExpectedFp =
      some (rstrLower [65]) :=
  claim_C9_empty_pinning_lowercase 1 (fun _ => [171]) [0] false
    ⟨[], false, SendRes.done, RecvRes.wouldBlock, true, some [1], [], false,
      none, false⟩
    [] [5] ⟨SendRes.done, true, some [1], [], false, none, false⟩
    [44, 32, 44] [65, 66] [65] [7] true true
    (Or.inl rfl) (Or.inr rfl) rfl (Or.inl rfl) rfl rfl (by decide)

/-- C10 (amended): the server loop has no "all connections closed" exit — an
idle iteration with an empty map continues — and its only break condition is
a fatal socket receive error; but, contrary to the frozen claim, such a
receive error does break out of the loop. -/
theorem claim_C10_loop_break_amended (h : Nat) (hf : List Nat → List Nat)
    (allow : List RStr) (st : ServerState) (it : ServerIter)
    (de : List Nat → Bool) (ob : List Nat → ConnObs) :
    ((run_server_worker_iter h hf allow st it).2.2.2 = LoopOutcome.brk ↔
      ∃ m, it.recv = ServerRecv.fatal m) ∧
    run_server_worker_iter h hf allow initialServerState
        ⟨[], de, ServerRecv.wouldBlock, ob⟩ =
      (initialServerState, [], [], LoopOutcome.next) := by
  refine ⟨⟨?_, ?_⟩, rfl⟩
  · intro hbrk
    rcases server_iter_cases h hf allow st it with ⟨m, hm, _, _⟩ | ⟨_, _, hoc⟩ |
      ⟨conns1, _, _, _, _, hoc⟩
    · exact ⟨m, hm⟩
    · rw [hoc] at hbrk
      exact absurd hbrk (by simp)
    · rw [hoc] at hbrk
      exact absurd hbrk (by simp)
  · rintro ⟨m, hm⟩
    simp [run_server_worker_iter, server_recv_step, hm]

/-- C10, counterexample to the frozen wording: a fatal socket receive error
breaks the server loop. -/
theorem claim_C10_counterexample :
    (run_server_worker_iter 1 (fun _ => []) [] initialServerState
      ⟨[], fun _ => false, ServerRecv.fatal "connection reset",
        fun _ => ⟨SendRes.done, false, none, [], false, none, false⟩⟩).2.2.2 =
      LoopOutcome.brk :=
  rfl

end CribcallQuic
